import Mathlib

/-!
Verification of the bbc-frontend catalog aggregation and selection engine.

The definitions below are a shallow embedding of the TypeScript sources:
the `Downloader` class in `src/lib/dock.ts` (renamed fields and methods kept
as in the source where possible) and the `BBC_API` class.  JavaScript numbers
are modelled as `Nat`/`Int` with exact arithmetic, `undefined`-able fields as
`Option`, and JS truthiness is reproduced where the code relies on it.
-/

/-! ## Data model -/

/-- A content provider, as in `src/apis/providers.ts` (interface only):
id, name, locale, capability flags, optional forced volume-label marker. -/
structure Provider where
  id : String
  name : String
  locale : String
  supportsBookPages : Bool
  ignoreErrors : Bool
  volumeMarker : Option String
deriving Repr, DecidableEq

/-- A decorated book, as the `Book` interface in `src/lib/dock.ts`.
Optional fields model `undefined`-able JS properties.  `coverIsCropped` is
only ever read for truthiness in the source, so `undefined` and `false`
are conflated into `false`. -/
structure Book where
  id : String
  title : String
  cover : String
  seriesId : Option String
  thumbnail : String
  provider : Provider
  volumeName : String
  volumeNumber : String
  displayText : String
  coverFormat : Option String
  coverHeight : Option Nat
  coverWidth : Option Nat
  coverIsCropped : Bool
  originalCover : Option String
  originalThumbnail : Option String
  originalWidth : Option Nat
  chromaSubsampling : Option String
  coverQualityScore : Option Nat
  selectedPage : Option Nat
deriving Repr, DecidableEq

/-! ## C1: cover quality score (`getCoverQualityScore`, dock.ts 264-292) -/

/-- JS `String.prototype.toLowerCase`, as a per-character map (all the
strings the program compares against are ASCII). -/
def toLowerCase (s : String) : String := String.mk (s.data.map Char.toLower)

/-- The `formatScores` record in `getCoverQualityScore`, with the JS
`formatScores[formatKey] || 0` default for unknown keys. -/
def formatScores (k : String) : Nat :=
  if k = "png" then 9
  else if k = "jpeg" then 6
  else if k = "jpg" then 6
  else if k = "webp" then 3
  else 0

/-- The `chromaScores` record in `getCoverQualityScore`, with the JS
`chromaScores[...] || 4` default for unknown keys. -/
def chromaScores (k : String) : Nat :=
  if k = "4:4:4" then 8
  else if k = "4:2:2" then 6
  else if k = "4:2:0" then 4
  else 4

/-- `getCoverQualityScore` (dock.ts 264-292).  `Math.floor (Math.sqrt r / 20)`
is `Nat.sqrt r / 20` on exact naturals; `Math.round (t / 2)` on a natural `t`
is `(t + 1) / 2` (JS rounds halves up).  An empty-string `chromaSubsampling`
is falsy in JS, so it leaves the default chroma score. -/
def getCoverQualityScore (book : Book) : Nat :=
  let resolution := book.coverWidth.getD 0 * book.coverHeight.getD 0
  let resScore := Nat.sqrt resolution / 20
  let formatKey := book.coverFormat.map toLowerCase
  let formatScore := match formatKey with
    | some k => formatScores k
    | none => 0
  let isJpeg := formatKey == some "jpeg" || formatKey == some "jpg"
  let chromaScore :=
    if isJpeg then
      match book.chromaSubsampling with
      | some c => if c = "" then 8 else chromaScores c
      | none => 8
    else 8
  let totalScore := resScore + formatScore + chromaScore
  (totalScore + 1) / 2

/-- The quality-score formula as the specification states it: a resolution
score, a format table, and a chroma table consulted for jpeg covers that
carry a (non-empty) chroma-subsampling value. -/
def coverQualityScoreSpec (book : Book) : Nat :=
  let resolutionScore := Nat.sqrt (book.coverWidth.getD 0 * book.coverHeight.getD 0) / 20
  let fmt := toLowerCase (book.coverFormat.getD "")
  let formatScore :=
    if fmt = "png" then 9
    else if fmt = "jpeg" ∨ fmt = "jpg" then 6
    else if fmt = "webp" then 3
    else 0
  let chroma := match book.chromaSubsampling with
    | some c => if c = "" then none else some c
    | none => none
  let chromaScore :=
    match chroma with
    | some c =>
        if fmt = "jpeg" ∨ fmt = "jpg" then
          if c = "4:4:4" then 8 else if c = "4:2:2" then 6 else 4
        else 8
    | none => 8
  let total := resolutionScore + formatScore + chromaScore
  (total + 1) / 2

/-- An all-defaults book record, used to build concrete instances. -/
def emptyBook : Book where
  id := ""
  title := ""
  cover := ""
  seriesId := none
  thumbnail := ""
  provider :=
    { id := "", name := "", locale := "", supportsBookPages := false,
      ignoreErrors := false, volumeMarker := none }
  volumeName := ""
  volumeNumber := ""
  displayText := ""
  coverFormat := none
  coverHeight := none
  coverWidth := none
  coverIsCropped := false
  originalCover := none
  originalThumbnail := none
  originalWidth := none
  chromaSubsampling := none
  coverQualityScore := none
  selectedPage := none

/-! ## C3: crop decision table (`calculateCropAmount`, dock.ts 254-262) -/

/-- `calculateCropAmount` (dock.ts 254-262).  The JS aspect value is
`Math.floor ((width / height) * 100) / 100` compared against `0.73` and
`0.8`; on exact arithmetic `aspect ≥ 0.73 ↔ width * 100 / height ≥ 73` and
`aspect < 0.8 ↔ width * 100 / height < 80`, so the integer
`aspect100 = width * 100 / height` carries the whole comparison. -/
def calculateCropAmount (width height : Nat) : Option Int :=
  let aspect100 := width * 100 / height
  if 880 ≤ width ∧ width ≤ 964 ∧ height = 1200 then some 120
  else if 220 ≤ width ∧ width ≤ 241 ∧ height = 300 then some 30
  else if 4000 < height ∧ 73 ≤ aspect100 ∧ aspect100 < 80 then some (-355)
  else if 2000 < width ∧ 2000 < height ∧ 73 ≤ aspect100 ∧ aspect100 < 80 then some (-211)
  else if width < 2000 ∧ 2000 < height ∧ 73 ≤ aspect100 ∧ aspect100 < 80 then some (-224)
  else none

/-- The specification's decision table: a row is a (condition, amount) pair,
listed in the documented order. -/
def cropDecisionTable (w h : Nat) : List (Bool × Int) :=
  let aspect100 := w * 100 / h
  [ (decide (880 ≤ w ∧ w ≤ 964 ∧ h = 1200), 120),
    (decide (220 ≤ w ∧ w ≤ 241 ∧ h = 300), 30),
    (decide (4000 < h ∧ 73 ≤ aspect100 ∧ aspect100 < 80), -355),
    (decide (2000 < w ∧ 2000 < h ∧ 73 ≤ aspect100 ∧ aspect100 < 80), -211),
    (decide (w < 2000 ∧ 2000 < h ∧ 73 ≤ aspect100 ∧ aspect100 < 80), -224) ]

/-- First-match-wins evaluation of the specification's decision table. -/
def cropAmountSpec (w h : Nat) : Option Int :=
  ((cropDecisionTable w h).find? (fun r => r.1)).map (fun r => r.2)

/-! ## C10: bulk-request chunker (`chopArray` in `BBC_API`) -/

/-- `chopArray` (BBC_API): slices of `chunkSize` elements taken from the
front until the array is exhausted.  The source loops
`for (i = 0; i < length; i += chunkSize)` pushing `slice(i, i + chunkSize)`;
a zero chunk size (which would loop forever in JS) returns `[]` here and is
excluded by every theorem about this function. -/
def chopArray {α : Type} (array : List α) (chunkSize : Nat) : List (List α) :=
  if array.isEmpty ∨ chunkSize = 0 then []
  else array.take chunkSize :: chopArray (array.drop chunkSize) chunkSize
termination_by array.length
decreasing_by
  simp only [List.isEmpty_iff, not_or] at *
  rename_i h
  have hlen : array.length ≠ 0 := fun hh => h.1 (List.eq_nil_of_length_eq_zero hh)
  simp only [List.length_drop]
  omega

/-- The concrete book of the C1 example: a png cover of 1000 x 1000. -/
def pngBook : Book :=
  { emptyBook with coverFormat := some "png", coverWidth := some 1000, coverHeight := some 1000 }

/-- `Nat.sqrt 1000000 = 1000`, certified via the square bounds (core's
`Nat.sqrt` does not reduce well in the kernel, so sqrt values of literals
are always established this way). -/
theorem sqrt_1000000 : Nat.sqrt 1000000 = 1000 :=
  ((Nat.eq_sqrt (n := 1000000) (a := 1000)).mpr (by norm_num)).symm

/-- Evaluation of the quality score for a png cover with known dimensions
(keeps `Nat.sqrt` symbolic). -/
theorem score_eval_png (b : Book) (w h : Nat) (hw : b.coverWidth = some w)
    (hh : b.coverHeight = some h) (hf : b.coverFormat = some "png") :
    getCoverQualityScore b = (Nat.sqrt (w * h) / 20 + 9 + 8 + 1) / 2 := by
  have hp : toLowerCase "png" = "png" := by decide
  simp [getCoverQualityScore, hw, hh, hf, hp, formatScores]

/-- C1: the computed cover quality score is
`round((resolutionScore + formatScore + chromaScore) / 2)` with the
resolution/format/chroma components exactly as the specification's tables
state them, and a png cover of 1000 x 1000 scores 34. -/
theorem c1_cover_quality_score :
    (∀ b : Book, getCoverQualityScore b = coverQualityScoreSpec b) ∧
    getCoverQualityScore pngBook = 34 := by
  constructor
  · intro b
    simp only [getCoverQualityScore, coverQualityScoreSpec, formatScores, chromaScores]
    have hlow : toLowerCase "" = "" := by decide
    cases hf : b.coverFormat with
    | none =>
      cases hc : b.chromaSubsampling with
      | none => simp [hlow]
      | some c => by_cases h5 : c = "" <;> simp [hlow, h5]
    | some f =>
      cases hc : b.chromaSubsampling with
      | none =>
        simp only [Option.map_some, Option.getD_some]
        by_cases h1 : toLowerCase f = "png" <;> by_cases h2 : toLowerCase f = "jpeg" <;>
          by_cases h3 : toLowerCase f = "jpg" <;> by_cases h4 : toLowerCase f = "webp" <;>
          simp_all
      | some c =>
        simp only [Option.map_some, Option.getD_some]
        by_cases h1 : toLowerCase f = "png" <;> by_cases h2 : toLowerCase f = "jpeg" <;>
          by_cases h3 : toLowerCase f = "jpg" <;> by_cases h4 : toLowerCase f = "webp" <;>
          by_cases h5 : c = "" <;>
          simp_all
  · rw [score_eval_png pngBook 1000 1000 rfl rfl rfl]
    rw [show (1000 * 1000 : Nat) = 1000000 from by norm_num]
    rw [sqrt_1000000]

/-- C3: the crop amount is decided by the specification's decision table,
first match wins, no match means no crop; with the three documented
examples. -/
theorem c3_crop_decision_table :
    (∀ w h : Nat, calculateCropAmount w h = cropAmountSpec w h) ∧
    calculateCropAmount 900 1200 = some 120 ∧
    calculateCropAmount 2500 3000 = none ∧
    calculateCropAmount 1800 2500 = none := by
  refine ⟨?_, by decide, by decide, by decide⟩
  intro w h
  by_cases c1 : 880 ≤ w ∧ w ≤ 964 ∧ h = 1200
  · simp [calculateCropAmount, cropAmountSpec, cropDecisionTable, List.find?, c1]
  by_cases c2 : 220 ≤ w ∧ w ≤ 241 ∧ h = 300
  · simp [calculateCropAmount, cropAmountSpec, cropDecisionTable, List.find?, c1, c2]
  by_cases c3 : 4000 < h ∧ 73 ≤ w * 100 / h ∧ w * 100 / h < 80
  · simp [calculateCropAmount, cropAmountSpec, cropDecisionTable, List.find?, c1, c2, c3]
  by_cases c4 : 2000 < w ∧ 2000 < h ∧ 73 ≤ w * 100 / h ∧ w * 100 / h < 80
  · have h4 : ¬ 4000 < h := fun hh => c3 ⟨hh, c4.2.2⟩
    simp [calculateCropAmount, cropAmountSpec, cropDecisionTable, List.find?, c1, c2, c3, c4, h4]
  by_cases c5 : w < 2000 ∧ 2000 < h ∧ 73 ≤ w * 100 / h ∧ w * 100 / h < 80
  · have h4 : ¬ 4000 < h := fun hh => c3 ⟨hh, c5.2.2⟩
    have h2 : ¬ 2000 < w := fun hw => c4 ⟨hw, c5.2⟩
    simp [calculateCropAmount, cropAmountSpec, cropDecisionTable, List.find?, c1, c2, c3, c4, c5,
      h4, h2]
  · simp [calculateCropAmount, cropAmountSpec, cropDecisionTable, List.find?, c1, c2, c3, c4, c5]

/-- `chopArray` on the empty array returns no chunks. -/
theorem chopArray_nil {α : Type} (k : Nat) : chopArray ([] : List α) k = [] := by
  rw [chopArray]; simp

theorem chopArray_cons {α : Type} (l : List α) (k : Nat) (hl : l ≠ []) (hk : 1 ≤ k) :
    chopArray l k = l.take k :: chopArray (l.drop k) k := by
  rw [chopArray]
  rw [if_neg]
  rintro (h | h)
  · exact hl (List.isEmpty_iff.mp h)
  · omega

theorem chopArray_props {α : Type} : ∀ (n : Nat) (l : List α) (k : Nat), l.length ≤ n → 1 ≤ k →
    (chopArray l k).flatten = l ∧
    (∀ c ∈ chopArray l k, c ≠ [] ∧ c.length ≤ k) ∧
    (∀ c ∈ (chopArray l k).dropLast, c.length = k) := by
  intro n
  induction n with
  | zero =>
    intro l k hl hk
    have : l = [] := List.eq_nil_of_length_eq_zero (Nat.le_zero.mp hl)
    subst this
    simp [chopArray_nil]
  | succ n ih =>
    intro l k hl hk
    by_cases hnil : l = []
    · subst hnil; simp [chopArray_nil]
    · rw [chopArray_cons l k hnil hk]
      have hdrop : (l.drop k).length ≤ n := by
        have h1 : 0 < l.length := List.length_pos.mpr hnil
        simp only [List.length_drop]
        omega
      obtain ⟨ihj, ihm, ihd⟩ := ih (l.drop k) k hdrop hk
      refine ⟨?_, ?_, ?_⟩
      · simp [ihj, List.take_append_drop]
      · intro c hc
        rcases List.mem_cons.mp hc with h | h
        · subst h
          constructor
          · intro habs
            rw [List.take_eq_nil_iff] at habs
            rcases habs with h1 | h1
            · omega
            · exact hnil h1
          · simp only [List.length_take]
            exact Nat.min_le_left k l.length
        · exact ihm c h
      · intro c hc
        by_cases hrest : chopArray (l.drop k) k = []
        · simp [hrest] at hc
        · rw [List.dropLast_cons_of_ne_nil hrest] at hc
          rcases List.mem_cons.mp hc with h | h
          · subst h
            have hdk : l.drop k ≠ [] := by
              intro habs
              rw [habs, chopArray_nil] at hrest
              exact hrest rfl
            have : k < l.length := by
              have := List.length_pos.mpr hdk
              simp only [List.length_drop] at this
              omega
            simp [List.length_take]
            omega
          · exact ihd c h

/-- C10: for a chunk size of at least 1, `chopArray` returns chunks whose
in-order concatenation is the input array, every chunk is non-empty and at
most `chunkSize` long, and every chunk but possibly the last is exactly
`chunkSize` long. -/
theorem c10_chopArray_chunks {α : Type} (l : List α) (k : Nat) (hk : 1 ≤ k) :
    (chopArray l k).flatten = l ∧
    (∀ c ∈ chopArray l k, c ≠ [] ∧ c.length ≤ k) ∧
    (∀ c ∈ (chopArray l k).dropLast, c.length = k) :=
  chopArray_props l.length l k (Nat.le_refl _) hk

/-- Witness for C10 at the concrete array `[1, 2, 3, 4, 5]` with chunk
size 2. -/
theorem c10_chopArray_chunks_witness :
    (1 : Nat) ≤ 2 ∧
    ((chopArray [1, 2, 3, 4, 5] 2).flatten = [1, 2, 3, 4, 5] ∧
    (∀ c ∈ chopArray [1, 2, 3, 4, 5] 2, c ≠ [] ∧ c.length ≤ 2) ∧
    (∀ c ∈ (chopArray [1, 2, 3, 4, 5] 2).dropLast, c.length = 2)) :=
  ⟨by decide, c10_chopArray_chunks [1, 2, 3, 4, 5] 2 (by decide)⟩

/-! ## C4: reversible cropping (`toggleCropCovers`, dock.ts 694-746) -/

/-- Options accepted by the external image-transform URL builder
(`WsrvOptions` in src/apis/wsrv.ts, interface only). -/
structure WsrvOptions where
  width : Option Nat := none
  height : Option Nat := none
  output : Option String := none
  quality : Option Nat := none
  cw : Option Nat := none
  cx : Option Nat := none
deriving Repr, DecidableEq

/-- Modelled from the spec: `WsrvApi.getUrl` is missing from the sources;
the spec consumes the image transform proxy as a "URL-builder taking a
source URL plus options (target width, output format, quality, crop-width,
crop-x-offset) and returning a transformed-image URL".  Modelled as a
deterministic encoding of the source URL and the options; only determinism
is relied on. -/
def wsrvGetUrl (src : String) (o : WsrvOptions) : String :=
  let part : Option Nat → String := fun v => match v with
    | some n => toString n
    | none => ""
  src ++ "?w=" ++ part o.width ++ "&h=" ++ part o.height ++ "&output=" ++ o.output.getD "" ++
    "&q=" ++ part o.quality ++ "&cw=" ++ part o.cw ++ "&cx=" ++ part o.cx

/-- `THUMBNAIL_DATA` (dock.ts 108-112): width 336, jpg output, quality 60. -/
def THUMBNAIL_DATA : WsrvOptions := { width := some 336, output := some "jpg", quality := some 60 }

/-- The crop-related configuration values read by `toggleCropCovers`
(`cropFormatSetting.value` and `cropQualitySetting.value`). -/
structure CropSettings where
  cropFormat : String
  cropQuality : Nat
deriving Repr, DecidableEq

/-- The un-crop branch of `toggleCropCovers` (dock.ts 696-706): restore the
preserved cover URL, thumbnail URL and width (JS `??` keeps the current
value when no backup is present), clear the backups, clear the cropped
flag, and recompute the quality score from the mutated book. -/
def uncropBook (book : Book) : Book :=
  let b1 := { book with
    cover := book.originalCover.getD book.cover
    thumbnail := book.originalThumbnail.getD book.thumbnail
    coverWidth := book.originalWidth.or book.coverWidth
    originalCover := none
    originalThumbnail := none
    originalWidth := none
    coverIsCropped := false }
  { b1 with coverQualityScore := some (getCoverQualityScore b1) }

/-- `Math.round (a * (336 / w))` on exact rationals: `(2 * (a * 336) + w) / (2 * w)`
(JS rounds halves up). -/
def roundRatio (a w : Nat) : Nat := (2 * (a * 336) + w) / (2 * w)

/-- The crop branch of `toggleCropCovers` (dock.ts 708-745): skip books that
are already cropped, have falsy (absent or zero) dimensions, or no
applicable crop amount; otherwise preserve cover/thumbnail/width, re-point
the cover and thumbnail at transform URLs (crop-width mode for positive
amounts, crop-offset mode for negative ones), reduce the stored width by
the absolute crop amount, set the cropped flag, and recompute the quality
score.  (The decision table guarantees the absolute amount is below the
width, so natural subtraction is exact.) -/
def cropBook (s : CropSettings) (book : Book) : Book :=
  if book.coverIsCropped then book
  else if book.coverHeight.getD 0 = 0 ∨ book.coverWidth.getD 0 = 0 then book
  else
    let w := book.coverWidth.getD 0
    let h := book.coverHeight.getD 0
    match calculateCropAmount w h with
    | none => book
    | some cropAmount =>
      if cropAmount = 0 then book
      else
        let absoluteCropAmount := cropAmount.natAbs
        let croppedWidth := w - absoluteCropAmount
        let cropUrl := wsrvGetUrl book.cover
          { output := some s.cropFormat, quality := some s.cropQuality,
            width := some w, height := some h,
            cw := if 0 < cropAmount then some croppedWidth else none,
            cx := if cropAmount < 0 then some absoluteCropAmount else none }
        let thumbnailAbsoluteCropAmount := roundRatio absoluteCropAmount w
        let thumbnailCroppedWidth := 336 - thumbnailAbsoluteCropAmount
        let thumbnailCropUrl := wsrvGetUrl book.cover
          { THUMBNAIL_DATA with
            cw := if 0 < cropAmount then some thumbnailCroppedWidth else none,
            cx := if cropAmount < 0 then some thumbnailAbsoluteCropAmount else none }
        let b1 := { book with
          originalCover := some book.cover
          originalThumbnail := some book.thumbnail
          originalWidth := book.coverWidth
          cover := cropUrl
          thumbnail := thumbnailCropUrl
          coverWidth := some croppedWidth
          coverIsCropped := true }
        { b1 with coverQualityScore := some (getCoverQualityScore b1) }

/-- `toggleCropCovers` (dock.ts 694-746): apply the crop or un-crop branch
to every book of the list. -/
def toggleCropCovers (s : CropSettings) (books : List Book) (crop : Bool) : List Book :=
  books.map (fun book => if crop then cropBook s book else uncropBook book)

/-- The quality score only depends on the cover dimensions, format and
chroma subsampling. -/
theorem score_congr (a b : Book) (h1 : a.coverWidth = b.coverWidth)
    (h2 : a.coverHeight = b.coverHeight) (h3 : a.coverFormat = b.coverFormat)
    (h4 : a.chromaSubsampling = b.chromaSubsampling) :
    getCoverQualityScore a = getCoverQualityScore b := by
  simp [getCoverQualityScore, h1, h2, h3, h4]

/-- A crop amount is only produced for non-zero dimensions, and is itself
non-zero. -/
theorem crop_amount_facts {w h : Nat} {amt : Int}
    (hamt : calculateCropAmount w h = some amt) : w ≠ 0 ∧ h ≠ 0 ∧ amt ≠ 0 := by
  simp only [calculateCropAmount] at hamt
  split_ifs at hamt with h1 h2 h3 h4 h5
  · injection hamt with hval
    exact ⟨by omega, by omega, by omega⟩
  · injection hamt with hval
    exact ⟨by omega, by omega, by omega⟩
  · injection hamt with hval
    refine ⟨?_, by omega, by omega⟩
    intro hw0
    rw [hw0] at h3
    simp at h3
  · injection hamt with hval
    exact ⟨by omega, by omega, by omega⟩
  · injection hamt with hval
    refine ⟨?_, by omega, by omega⟩
    intro hw0
    rw [hw0] at h5
    simp at h5

/-- Un-cropping a freshly cropped book restores it exactly (for a book with
clear backups and a consistent quality score). -/
theorem crop_then_uncrop (s : CropSettings) (b : Book) (w h : Nat) (amt : Int)
    (hw : b.coverWidth = some w) (hh : b.coverHeight = some h)
    (hamt : calculateCropAmount w h = some amt)
    (hnc : b.coverIsCropped = false)
    (hbc : b.originalCover = none) (hbt : b.originalThumbnail = none)
    (hbw : b.originalWidth = none)
    (hscore : b.coverQualityScore = some (getCoverQualityScore b)) :
    uncropBook (cropBook s b) = b := by
  obtain ⟨hw0, hh0, hamt0⟩ := crop_amount_facts hamt
  cases b with
  | mk id title cover seriesId thumbnail provider volumeName volumeNumber displayText
      coverFormat coverHeight coverWidth coverIsCropped originalCover originalThumbnail
      originalWidth chromaSubsampling coverQualityScore selectedPage =>
    simp only at hw hh hnc hbc hbt hbw
    subst hw hh hnc hbc hbt hbw
    simp only [cropBook, uncropBook, Option.getD_some, hamt]
    rw [if_neg (by simp), if_neg (by simp [hw0, hh0]), if_neg hamt0]
    simp only [Option.getD_some, Option.or, Book.mk.injEq, true_and, and_true]
    simp only at hscore
    rw [hscore]
    simp only [Option.some.injEq]
    exact score_congr _ _ rfl rfl rfl rfl

/-- Applying a crop preserves the pre-crop cover URL, thumbnail URL and
width in the backup fields. -/
theorem cropBook_backups (s : CropSettings) (b : Book) (w h : Nat) (amt : Int)
    (hw : b.coverWidth = some w) (hh : b.coverHeight = some h)
    (hamt : calculateCropAmount w h = some amt) (hnc : b.coverIsCropped = false) :
    (cropBook s b).originalCover = some b.cover ∧
    (cropBook s b).originalThumbnail = some b.thumbnail ∧
    (cropBook s b).originalWidth = some w := by
  obtain ⟨hw0, hh0, hamt0⟩ := crop_amount_facts hamt
  simp only [cropBook, hw, hh, Option.getD_some, hamt]
  rw [if_neg (by simp [hnc]), if_neg (by simp [hw0, hh0]), if_neg hamt0]
  simp

/-- Cropping an already-cropped book leaves it unchanged. -/
theorem crop_noop (s : CropSettings) (c : Book) (h : c.coverIsCropped = true) :
    cropBook s c = c := by
  simp [cropBook, h]

/-- Un-cropping a book that is not cropped (no backups, fresh score) leaves
it unchanged. -/
theorem uncrop_noop (c : Book) (hnc : c.coverIsCropped = false)
    (hbc : c.originalCover = none) (hbt : c.originalThumbnail = none)
    (hbw : c.originalWidth = none)
    (hscore : c.coverQualityScore = some (getCoverQualityScore c)) :
    uncropBook c = c := by
  cases c with
  | mk id title cover seriesId thumbnail provider volumeName volumeNumber displayText
      coverFormat coverHeight coverWidth coverIsCropped originalCover originalThumbnail
      originalWidth chromaSubsampling coverQualityScore selectedPage =>
    simp only at hnc hbc hbt hbw
    subst hnc hbc hbt hbw
    simp only [uncropBook, Option.getD_none, Option.or, Book.mk.injEq, true_and, and_true]
    simp only at hscore
    rw [hscore]
    simp only [Option.some.injEq]
    exact score_congr _ _ rfl rfl rfl rfl

/-- C4: applying a crop preserves the pre-crop cover URL, thumbnail URL and
width in the backup fields; un-cropping restores them verbatim, clears the
backups and recomputes the score, so crop/uncrop round-trips on the score;
cropping an already-cropped book and un-cropping a non-cropped book are
no-ops. -/
theorem c4_crop_reversible (s : CropSettings) (b : Book) (w h : Nat) (amt : Int)
    (hw : b.coverWidth = some w) (hh : b.coverHeight = some h)
    (hamt : calculateCropAmount w h = some amt)
    (hnc : b.coverIsCropped = false)
    (hbc : b.originalCover = none) (hbt : b.originalThumbnail = none)
    (hbw : b.originalWidth = none)
    (hscore : b.coverQualityScore = some (getCoverQualityScore b)) :
    ((cropBook s b).originalCover = some b.cover ∧
     (cropBook s b).originalThumbnail = some b.thumbnail ∧
     (cropBook s b).originalWidth = some w) ∧
    toggleCropCovers s (toggleCropCovers s [b] true) false = [b] ∧
    getCoverQualityScore (cropBook s (uncropBook (cropBook s b))) =
      getCoverQualityScore (cropBook s b) ∧
    (∀ c : Book, c.coverIsCropped = true → toggleCropCovers s [c] true = [c]) ∧
    (∀ c : Book, c.coverIsCropped = false → c.originalCover = none →
      c.originalThumbnail = none → c.originalWidth = none →
      c.coverQualityScore = some (getCoverQualityScore c) →
      toggleCropCovers s [c] false = [c]) := by
  have hroundtrip := crop_then_uncrop s b w h amt hw hh hamt hnc hbc hbt hbw hscore
  refine ⟨cropBook_backups s b w h amt hw hh hamt hnc, ?_, ?_, ?_, ?_⟩
  · simp [toggleCropCovers, hroundtrip]
  · rw [hroundtrip]
  · intro c hc
    simp [toggleCropCovers, crop_noop s c hc]
  · intro c hc h1 h2 h3 h4
    simp [toggleCropCovers, uncrop_noop c hc h1 h2 h3 h4]

/-- The concrete book of the C4 witness: a 900 x 1200 cover (crop amount
+120), quality score 30 (= round((floor(sqrt(1080000)) / 20 + 0 + 8) / 2)). -/
def cropDemoBook : Book :=
  { emptyBook with
    coverWidth := some 900
    coverHeight := some 1200
    coverQualityScore := some 30 }

/-- `Nat.sqrt 1080000 = 1039`, certified via the square bounds. -/
theorem sqrt_1080000 : Nat.sqrt 1080000 = 1039 :=
  ((Nat.eq_sqrt (n := 1080000) (a := 1039)).mpr (by norm_num)).symm

/-- Evaluation of the quality score for a format-less cover with known
dimensions. -/
theorem score_eval_nofmt (b : Book) (w h : Nat) (hw : b.coverWidth = some w)
    (hh : b.coverHeight = some h) (hf : b.coverFormat = none) :
    getCoverQualityScore b = (Nat.sqrt (w * h) / 20 + 0 + 8 + 1) / 2 := by
  simp [getCoverQualityScore, hw, hh, hf]

/-- The C4 demo book's stored score is consistent. -/
theorem cropDemoBook_score : getCoverQualityScore cropDemoBook = 30 := by
  rw [score_eval_nofmt cropDemoBook 900 1200 rfl rfl rfl]
  rw [show (900 * 1200 : Nat) = 1080000 from by norm_num, sqrt_1080000]

/-- Witness for C4 at a 900 x 1200 book with jpg/98 crop settings. -/
theorem c4_crop_reversible_witness :
    (cropDemoBook.coverWidth = some 900 ∧ cropDemoBook.coverHeight = some 1200 ∧
     calculateCropAmount 900 1200 = some 120 ∧ cropDemoBook.coverIsCropped = false ∧
     cropDemoBook.originalCover = none ∧ cropDemoBook.originalThumbnail = none ∧
     cropDemoBook.originalWidth = none ∧
     cropDemoBook.coverQualityScore = some (getCoverQualityScore cropDemoBook)) ∧
    (((cropBook ⟨"jpg", 98⟩ cropDemoBook).originalCover = some cropDemoBook.cover ∧
      (cropBook ⟨"jpg", 98⟩ cropDemoBook).originalThumbnail = some cropDemoBook.thumbnail ∧
      (cropBook ⟨"jpg", 98⟩ cropDemoBook).originalWidth = some 900) ∧
     toggleCropCovers ⟨"jpg", 98⟩ (toggleCropCovers ⟨"jpg", 98⟩ [cropDemoBook] true) false =
       [cropDemoBook] ∧
     getCoverQualityScore (cropBook ⟨"jpg", 98⟩ (uncropBook (cropBook ⟨"jpg", 98⟩ cropDemoBook))) =
       getCoverQualityScore (cropBook ⟨"jpg", 98⟩ cropDemoBook) ∧
     (∀ c : Book, c.coverIsCropped = true → toggleCropCovers ⟨"jpg", 98⟩ [c] true = [c]) ∧
     (∀ c : Book, c.coverIsCropped = false → c.originalCover = none →
       c.originalThumbnail = none → c.originalWidth = none →
       c.coverQualityScore = some (getCoverQualityScore c) →
       toggleCropCovers ⟨"jpg", 98⟩ [c] false = [c])) :=
  ⟨⟨rfl, rfl, by decide, rfl, rfl, rfl, rfl, by rw [cropDemoBook_score]; rfl⟩,
   c4_crop_reversible ⟨"jpg", 98⟩ cropDemoBook 900 1200 120 rfl rfl (by decide) rfl rfl rfl rfl
     (by rw [cropDemoBook_score]; rfl)⟩

/-! ## C2: automatic quality pick (`automaticallyPickCovers`, dock.ts 341-376) -/

/-- JS `Array.prototype.findIndex` over the user's provider list: the
position of the provider with the given id, `-1` when absent. -/
def providerIndex (providers : List Provider) (pid : String) : Int :=
  match providers.findIdx? (fun p => p.id == pid) with
  | some i => (i : Int)
  | none => -1

/-- The quality / provider-priority part of the comparator in
`automaticallyPickCovers` (dock.ts 363-369). -/
def pickCmpQuality (providers : List Provider) (a b : Book) : Int :=
  let qualityA : Int := a.coverQualityScore.getD 0
  let qualityB : Int := b.coverQualityScore.getD 0
  if qualityA ≠ qualityB then qualityB - qualityA
  else providerIndex providers a.provider.id - providerIndex providers b.provider.id

/-- The full comparator passed to `sort` in `automaticallyPickCovers`
(dock.ts 357-370): when a page-index preference is active, page-capable
providers sort first; then the quality / provider-priority comparison. -/
def pickCmp (providers : List Provider) (selectedBookPage : Nat) (a b : Book) : Int :=
  if 0 < selectedBookPage then
    if a.provider.supportsBookPages && !b.provider.supportsBookPages then -1
    else if !a.provider.supportsBookPages && b.provider.supportsBookPages then 1
    else pickCmpQuality providers a b
  else pickCmpQuality providers a b

/-- The comparator as a boolean "sorts no later than" relation; JS `sort`
with a consistent comparator produces the stable order of this relation. -/
def pickLE (providers : List Provider) (selectedBookPage : Nat) (a b : Book) : Bool :=
  pickCmp providers selectedBookPage a b ≤ 0

/-- First-occurrence deduplication of a key list: the iteration order of the
JS `Map` used to group books by volume name. -/
def firstKeys : List String → List String
  | [] => []
  | k :: rest => k :: (firstKeys rest).filter (fun x => x ≠ k)

/-- The volume-name group of a key: the books of the set whose volume name
is the key (`booksByVolume.get(k)` in dock.ts 342-348, in input order). -/
def volumeGroup (books : List Book) (k : String) : List Book :=
  books.filter (fun b => b.volumeName == k)

/-- The book(s) kept for one volume-name group (dock.ts 352-372): a
singleton group as is, otherwise the head of the group stably sorted by the
comparator. -/
def groupPick (providers : List Provider) (selectedBookPage : Nat) (books : List Book)
    (k : String) : List Book :=
  let volumeBooks := volumeGroup books k
  if volumeBooks.length == 1 then volumeBooks
  else (volumeBooks.mergeSort (pickLE providers selectedBookPage)).take 1

/-- The `booksToKeep` set of `automaticallyPickCovers` (dock.ts 350-373):
one kept book per volume-name group, in group-insertion order. -/
def booksToKeep (providers : List Provider) (selectedBookPage : Nat)
    (books : List Book) : List Book :=
  (firstKeys (books.map (fun b => b.volumeName))).foldr
    (fun k acc => groupPick providers selectedBookPage books k ++ acc) []

/-- `automaticallyPickCovers` (dock.ts 341-376): group the books by volume
name (insertion order), keep a singleton group as is, otherwise keep the
head of the group stably sorted by the comparator, and filter the input to
the kept books. -/
def automaticallyPickCovers (providers : List Provider) (selectedBookPage : Nat)
    (books : List Book) : List Book :=
  books.filter (fun b => decide (b ∈ booksToKeep providers selectedBookPage books))

/-- Lexicographic "no worse than" on a (page-rank, quality, provider-index)
key: lower page rank first, then higher quality, then lower provider
index. -/
def lexLE (pa : Nat) (qa ia : Int) (pb : Nat) (qb ib : Int) : Bool :=
  if pa ≠ pb then decide (pa < pb)
  else if qa ≠ qb then decide (qb < qa)
  else decide (ia ≤ ib)

/-- The page-preference rank of a candidate: when a page-index preference is
active, page-capable providers rank 0 and others 1; otherwise all rank 0. -/
def pageRank (selectedBookPage : Nat) (x : Book) : Nat :=
  if 0 < selectedBookPage ∧ x.provider.supportsBookPages then 0
  else if 0 < selectedBookPage then 1 else 0

/-- The quality score used by the comparator (`coverQualityScore || 0`). -/
def quality (x : Book) : Int := x.coverQualityScore.getD 0

/-- The specification's preference order on candidates of one volume group:
page-capable providers first when a page-index preference is active, then
higher quality score, then earlier position in the user's selected-provider
order. -/
def specPreferredLE (providers : List Provider) (selectedBookPage : Nat) (a b : Book) : Bool :=
  lexLE (pageRank selectedBookPage a) (quality a) (providerIndex providers a.provider.id)
    (pageRank selectedBookPage b) (quality b) (providerIndex providers b.provider.id)

/-- The per-book preference relations agree: the code's comparator sorts `a`
no later than `b` exactly when the specification prefers `a` weakly over
`b`. -/
theorem pickLE_eq_spec (providers : List Provider) (sbp : Nat) (a b : Book) :
    pickLE providers sbp a b = specPreferredLE providers sbp a b := by
  simp only [pickLE, pickCmp, pickCmpQuality, specPreferredLE, lexLE, pageRank, quality]
  by_cases hs : 0 < sbp
  · by_cases ha : a.provider.supportsBookPages = true <;>
    by_cases hb : b.provider.supportsBookPages = true <;>
    by_cases hq : (a.coverQualityScore.getD 0 : Int) = (b.coverQualityScore.getD 0 : Int) <;>
    simp [hs, ha, hb, hq, decide_eq_decide] <;> omega
  · by_cases hq : (a.coverQualityScore.getD 0 : Int) = (b.coverQualityScore.getD 0 : Int) <;>
    simp [hs, hq, decide_eq_decide] <;> omega

/-- The lexicographic preference is reflexive. -/
theorem lexLE_refl (pa : Nat) (qa ia : Int) : lexLE pa qa ia pa qa ia = true := by
  simp [lexLE]

/-- The lexicographic preference is total. -/
theorem lexLE_total (pa pb : Nat) (qa ia qb ib : Int) :
    lexLE pa qa ia pb qb ib || lexLE pb qb ib pa qa ia := by
  rcases eq_or_ne pa pb with hp | hp <;> rcases eq_or_ne qa qb with hq | hq <;>
    simp_all [lexLE, Bool.or_eq_true, decide_eq_true_eq, ne_comm] <;> omega

/-- The lexicographic preference is transitive. -/
theorem lexLE_trans (pa pb pc : Nat) (qa ia qb ib qc ic : Int)
    (h1 : lexLE pa qa ia pb qb ib = true) (h2 : lexLE pb qb ib pc qc ic = true) :
    lexLE pa qa ia pc qc ic = true := by
  rcases eq_or_ne pa pb with hp1 | hp1 <;> rcases eq_or_ne pb pc with hp2 | hp2 <;>
    rcases eq_or_ne pa pc with hp3 | hp3 <;>
    rcases eq_or_ne qa qb with hq1 | hq1 <;> rcases eq_or_ne qb qc with hq2 | hq2 <;>
    rcases eq_or_ne qa qc with hq3 | hq3 <;>
    simp_all [lexLE, Bool.or_eq_true, decide_eq_true_eq, ne_comm] <;> omega

/-- The specification preference is reflexive. -/
theorem specLE_refl (providers : List Provider) (sbp : Nat) (a : Book) :
    specPreferredLE providers sbp a a = true := lexLE_refl _ _ _

/-- The specification preference is total. -/
theorem specLE_total (providers : List Provider) (sbp : Nat) (a b : Book) :
    specPreferredLE providers sbp a b || specPreferredLE providers sbp b a :=
  lexLE_total _ _ _ _ _ _

/-- The specification preference is transitive. -/
theorem specLE_trans (providers : List Provider) (sbp : Nat) (a b c : Book)
    (h1 : specPreferredLE providers sbp a b = true)
    (h2 : specPreferredLE providers sbp b c = true) :
    specPreferredLE providers sbp a c = true :=
  lexLE_trans _ _ _ _ _ _ _ _ _ h1 h2

/-- The code comparator relation is total. -/
theorem pickLE_total (providers : List Provider) (sbp : Nat) (a b : Book) :
    (pickLE providers sbp a b || pickLE providers sbp b a) = true := by
  rw [pickLE_eq_spec, pickLE_eq_spec]
  exact specLE_total providers sbp a b

/-- The code comparator relation is transitive. -/
theorem pickLE_trans (providers : List Provider) (sbp : Nat) (a b c : Book)
    (h1 : pickLE providers sbp a b = true) (h2 : pickLE providers sbp b c = true) :
    pickLE providers sbp a c = true := by
  rw [pickLE_eq_spec] at *
  exact specLE_trans providers sbp a b c h1 h2

/-- `firstKeys` preserves membership. -/
theorem firstKeys_mem (l : List String) (x : String) : x ∈ firstKeys l ↔ x ∈ l := by
  induction l with
  | nil => simp [firstKeys]
  | cons k rest ih =>
    simp only [firstKeys, List.mem_cons, List.mem_filter, ih]
    constructor
    · rintro (h | ⟨h, _⟩)
      · exact Or.inl h
      · exact Or.inr h
    · rintro (h | h)
      · exact Or.inl h
      · by_cases hk : x = k
        · exact Or.inl hk
        · exact Or.inr ⟨h, by simpa using hk⟩

/-- Membership in the fold of per-key picks. -/
theorem mem_booksToKeep (providers : List Provider) (sbp : Nat) (books : List Book) (b : Book) :
    b ∈ booksToKeep providers sbp books ↔
      ∃ k ∈ firstKeys (books.map (fun x => x.volumeName)),
        b ∈ groupPick providers sbp books k := by
  unfold booksToKeep
  induction firstKeys (books.map (fun x => x.volumeName)) with
  | nil => simp
  | cons k rest ih => simp [ih]

/-- Every non-empty volume group has a single kept winner: a member of the
group weakly preferred (in the specification order) over every group
member. -/
theorem groupPick_winner (providers : List Provider) (sbp : Nat) (books : List Book)
    (k : String) (hk : volumeGroup books k ≠ []) :
    ∃ w, groupPick providers sbp books k = [w] ∧ w ∈ volumeGroup books k ∧
      ∀ b ∈ volumeGroup books k, specPreferredLE providers sbp w b = true := by
  unfold groupPick
  by_cases hlen : (volumeGroup books k).length = 1
  · obtain ⟨w, hw⟩ := List.length_eq_one.mp hlen
    refine ⟨w, by simp [hlen, hw], by simp [hw], ?_⟩
    intro b hb
    rw [hw] at hb
    simp only [List.mem_singleton] at hb
    subst hb
    exact specLE_refl _ _ _
  · rw [if_neg (by simpa using hlen)]
    have hperm : ((volumeGroup books k).mergeSort (pickLE providers sbp)).Perm
        (volumeGroup books k) := List.mergeSort_perm _ _
    have hsne : (volumeGroup books k).mergeSort (pickLE providers sbp) ≠ [] := by
      intro h0
      rw [h0] at hperm
      exact hk (hperm.symm.eq_nil)
    obtain ⟨w, t, hwt⟩ := List.exists_cons_of_ne_nil hsne
    have hsorted := @List.sorted_mergeSort _ (pickLE providers sbp)
      (fun a b c => pickLE_trans providers sbp a b c)
      (fun a b => pickLE_total providers sbp a b) (volumeGroup books k)
    rw [hwt] at hsorted hperm
    rw [List.pairwise_cons] at hsorted
    refine ⟨w, by rw [hwt]; simp, hperm.subset (List.mem_cons_self w t), ?_⟩
    intro b hb
    have hbs : b ∈ w :: t := hperm.mem_iff.mpr hb
    rcases List.mem_cons.mp hbs with rfl | hbt
    · exact specLE_refl _ _ _
    · have := hsorted.1 b hbt
      rw [pickLE_eq_spec] at this
      exact this

/-- A kept book's volume name is its group key. -/
theorem groupPick_vol (providers : List Provider) (sbp : Nat) (books : List Book)
    (k : String) (b : Book) (hb : b ∈ groupPick providers sbp books k) :
    b.volumeName = k ∧ b ∈ books := by
  have hsub : b ∈ volumeGroup books k := by
    unfold groupPick at hb
    by_cases hlen : (volumeGroup books k).length == 1
    · rw [if_pos hlen] at hb
      exact hb
    · rw [if_neg hlen] at hb
      have := List.take_subset 1 ((volumeGroup books k).mergeSort (pickLE providers sbp))
      exact (List.mergeSort_perm _ _).subset (this hb)
  unfold volumeGroup at hsub
  rw [List.mem_filter] at hsub
  exact ⟨by simpa using hsub.2, hsub.1⟩

/-- C2: on a merged book set (no duplicate books), the automatic quality
pick keeps exactly one book per distinct volume-name group, passes
singleton groups through, and every surviving book is weakly preferred over
every candidate of its group in the specification order (page support when
a page preference is active, then quality score, then provider position). -/
theorem c2_automatic_pick (providers : List Provider) (sbp : Nat) (books : List Book)
    (hnd : books.Nodup) :
    (∀ v ∈ books.map (fun b => b.volumeName),
      ((automaticallyPickCovers providers sbp books).filter
        (fun b => b.volumeName == v)).length = 1) ∧
    (∀ b ∈ books, (books.filter (fun x => x.volumeName == b.volumeName)).length = 1 →
      b ∈ automaticallyPickCovers providers sbp books) ∧
    (∀ k ∈ automaticallyPickCovers providers sbp books, ∀ b ∈ books,
      b.volumeName = k.volumeName → specPreferredLE providers sbp k b = true) := by
  have hgroup_mem : ∀ b ∈ books, b ∈ volumeGroup books b.volumeName := by
    intro b hb
    unfold volumeGroup
    rw [List.mem_filter]
    exact ⟨hb, by simp⟩
  have hkeymem : ∀ v ∈ books.map (fun b => b.volumeName), volumeGroup books v ≠ [] := by
    intro v hv h0
    obtain ⟨b, hb, rfl⟩ := List.mem_map.mp hv
    have := hgroup_mem b hb
    rw [h0] at this
    exact absurd this (List.not_mem_nil b)
  refine ⟨?_, ?_, ?_⟩
  · intro v hv
    obtain ⟨w, hpick, hwg, hmin⟩ := groupPick_winner providers sbp books v (hkeymem v hv)
    have hwvol : w.volumeName = v ∧ w ∈ books :=
      groupPick_vol providers sbp books v w (by rw [hpick]; exact List.mem_singleton_self w)
    unfold automaticallyPickCovers
    rw [List.filter_filter]
    have hiff : ∀ a ∈ books,
        (((a.volumeName == v) && decide (a ∈ booksToKeep providers sbp books)) = true ↔
          (a == w) = true) := by
      intro a ha
      simp only [Bool.and_eq_true, decide_eq_true_eq, beq_iff_eq]
      constructor
      · rintro ⟨hav, hak⟩
        obtain ⟨k, hkmem, hapick⟩ := (mem_booksToKeep providers sbp books a).mp hak
        have := groupPick_vol providers sbp books k a hapick
        rw [hav] at this
        rw [this.1] at hpick
        rw [hpick] at hapick
        simpa using hapick
      · rintro rfl
        refine ⟨hwvol.1, (mem_booksToKeep providers sbp books a).mpr ⟨v, ?_, ?_⟩⟩
        · exact (firstKeys_mem _ _).mpr hv
        · rw [hpick]
          exact List.mem_singleton_self a
    calc (books.filter
        (fun a => (a.volumeName == v) && decide (a ∈ booksToKeep providers sbp books))).length
        = List.countP
            (fun a => (a.volumeName == v) && decide (a ∈ booksToKeep providers sbp books))
            books := (List.countP_eq_length_filter _ _).symm
      _ = List.countP (fun a => a == w) books := List.countP_congr hiff
      _ = List.count w books := (List.count_eq_countP w books).symm
      _ = 1 := List.count_eq_one_of_mem hnd hwvol.2
  · intro b hb hlen
    have hg1 : volumeGroup books b.volumeName = [b] := by
      obtain ⟨a, ha⟩ := List.length_eq_one.mp hlen
      have hbmem := hgroup_mem b hb
      unfold volumeGroup at *
      rw [ha] at hbmem ⊢
      simp only [List.mem_singleton] at hbmem
      rw [hbmem]
    have hpick : groupPick providers sbp books b.volumeName = [b] := by
      unfold groupPick
      rw [if_pos (by rw [hg1]; rfl), hg1]
    unfold automaticallyPickCovers
    rw [List.mem_filter]
    refine ⟨hb, by
      simp only [decide_eq_true_eq]
      exact (mem_booksToKeep providers sbp books b).mpr
        ⟨b.volumeName, (firstKeys_mem _ _).mpr (List.mem_map_of_mem _ hb), by
          rw [hpick]; exact List.mem_singleton_self b⟩⟩
  · intro k hk b hb hvol
    unfold automaticallyPickCovers at hk
    rw [List.mem_filter] at hk
    obtain ⟨hkb, hkk⟩ := hk
    simp only [decide_eq_true_eq] at hkk
    obtain ⟨key, hkeymem2, hkpick⟩ := (mem_booksToKeep providers sbp books k).mp hkk
    have hkvol := groupPick_vol providers sbp books key k hkpick
    have hne : volumeGroup books key ≠ [] := by
      intro h0
      have := hgroup_mem k hkb
      rw [hkvol.1] at this
      rw [h0] at this
      exact absurd this (List.not_mem_nil k)
    obtain ⟨w, hpick, hwg, hmin⟩ := groupPick_winner providers sbp books key hne
    have hkw : k = w := by
      rw [hpick] at hkpick
      simpa using hkpick
    subst hkw
    apply hmin
    unfold volumeGroup
    rw [List.mem_filter]
    exact ⟨hb, by rw [hvol, hkvol.1]; simp⟩

/-- Providers of the C2 witness. -/
def provA : Provider :=
  { id := "a", name := "A", locale := "en", supportsBookPages := false,
    ignoreErrors := false, volumeMarker := none }

/-- Second provider of the C2 witness. -/
def provB : Provider :=
  { id := "b", name := "B", locale := "en", supportsBookPages := true,
    ignoreErrors := false, volumeMarker := none }

/-- The C2 witness book set: two candidates of "Volume 1" and a lone
"Volume 2". -/
def pickBook1 : Book :=
  { emptyBook with
    id := "1"
    provider := provA
    volumeName := "Volume 1"
    coverQualityScore := some 5 }

/-- Second candidate of "Volume 1" in the C2 witness. -/
def pickBook2 : Book :=
  { emptyBook with
    id := "2"
    provider := provB
    volumeName := "Volume 1"
    coverQualityScore := some 7 }

/-- The lone "Volume 2" book in the C2 witness. -/
def pickBook3 : Book :=
  { emptyBook with
    id := "3"
    provider := provA
    volumeName := "Volume 2" }

/-- The C2 witness book set. -/
def pickBooks : List Book := [pickBook1, pickBook2, pickBook3]

/-- Witness for C2 at the concrete three-book set. -/
theorem c2_automatic_pick_witness :
    pickBooks.Nodup ∧
    ((∀ v ∈ pickBooks.map (fun b => b.volumeName),
      ((automaticallyPickCovers [provA, provB] 0 pickBooks).filter
        (fun b => b.volumeName == v)).length = 1) ∧
    (∀ b ∈ pickBooks,
      (pickBooks.filter (fun x => x.volumeName == b.volumeName)).length = 1 →
      b ∈ automaticallyPickCovers [provA, provB] 0 pickBooks) ∧
    (∀ k ∈ automaticallyPickCovers [provA, provB] 0 pickBooks, ∀ b ∈ pickBooks,
      b.volumeName = k.volumeName → specPreferredLE [provA, provB] 0 k b = true)) :=
  ⟨by simp [pickBooks, pickBook1, pickBook2, pickBook3, emptyBook],
   c2_automatic_pick [provA, provB] 0 pickBooks
     (by simp [pickBooks, pickBook1, pickBook2, pickBook3, emptyBook])⟩

/-! ## C5: ordering-number extraction (`getVolumeNumber`, dock.ts 383-404)

The four regular expressions of `getVolumeNumber` are embedded as explicit
scanners over `List Char`.  Each scanner is exact for its pattern: the
number pattern is deterministic once greedy (a digit run can never overlap
a following literal dot), so maximal-munch scanning reproduces the
backtracking regex engine.  Recursions that advance by a computed number of
characters carry a fuel argument; callers pass the input length plus one,
which every step's one-or-more-character consumption keeps sufficient. -/

/-- JS `\d` (ASCII digits). -/
def isDigitChar (c : Char) : Bool := c.isDigit

/-- JS `\s`, restricted to its ASCII core (space, tab, line and page
separators), which covers the program's inputs. -/
def isSpaceChar (c : Char) : Bool :=
  c = ' ' ∨ c = '\t' ∨ c = '\n' ∨ c = '\r' ∨ c = '\x0b' ∨ c = '\x0c'

/-- The character class `[．,#/／・年月]` of dock.ts 384, replaced by `.`. -/
def normalizeChar (c : Char) : Char :=
  if c = '．' ∨ c = ',' ∨ c = '#' ∨ c = '/' ∨ c = '／' ∨ c = '・' ∨ c = '年' ∨ c = '月'
  then '.' else c

/-- `title.replace(/[．,#/／・年月]/g, '.')` (dock.ts 384). -/
def normalizeSeparators (s : List Char) : List Char := s.map normalizeChar

/-- One full-width-to-ASCII character substitution
(`replaceAll(character, i.toString())`). -/
def replaceAllChar (s : List Char) (c d : Char) : List Char :=
  s.map (fun x => if x = c then d else x)

/-- The `japaneseCharacters` array of dock.ts 386. -/
def japaneseCharacters : List Char :=
  ['０', '１', '２', '３', '４', '５', '６', '７', '８', '９']

/-- The `forEach` loop of dock.ts 387-389: replace each full-width digit
glyph by the ASCII digit of its index. -/
def translateDigits (s : List Char) : List Char :=
  japaneseCharacters.enum.foldl (fun acc p => replaceAllChar acc p.2 (Char.ofNat (48 + p.1))) s

/-- The same translation as a single character map (the specification's
reading). -/
def translateChar (c : Char) : Char :=
  if c = '０' then '0' else if c = '１' then '1' else if c = '２' then '2'
  else if c = '３' then '3' else if c = '４' then '4' else if c = '５' then '5'
  else if c = '６' then '6' else if c = '７' then '7' else if c = '８' then '8'
  else if c = '９' then '9' else c

/-- Greedy match of `(?:\.\d+)+` (possibly empty): the text consumed by the
dotted sub-parts of the number pattern. -/
def matchDotText (fuel : Nat) (s : List Char) : List Char :=
  match fuel with
  | 0 => []
  | fuel + 1 =>
    match s with
    | '.' :: cs =>
      let ds := cs.takeWhile isDigitChar
      if ds.isEmpty then []
      else '.' :: (ds ++ matchDotText fuel (cs.drop ds.length))
    | _ => []

/-- Greedy match of `\d+(?:(?:\.\d+)+)?` at the head of the input: the
matched text, or `none` when the input does not start with a digit. -/
def matchNumber (s : List Char) : Option (List Char) :=
  let ds := s.takeWhile isDigitChar
  if ds.isEmpty then none
  else some (ds ++ matchDotText (s.drop ds.length).length (s.drop ds.length))

/-- Case-insensitive literal prefix match (the pattern is given in lower
case); returns the rest of the input after the prefix. -/
def matchCI : List Char → List Char → Option (List Char)
  | [], s => some s
  | _ :: _, [] => none
  | c :: cs, x :: xs => if x.toLower = c then matchCI cs xs else none

/-- `\s+`: one or more whitespace characters; returns the rest. -/
def matchSpaces1 (s : List Char) : Option (List Char) :=
  let sp := s.takeWhile isSpaceChar
  if sp.isEmpty then none else some (s.drop sp.length)

/-- After a marker alternative has matched (leaving `rest?`), match the
captured number `(\d+(?:(?:\.\d+)+)?)`: the capture and the rest after
the full match. -/
def markerCapture (rest? : Option (List Char)) : Option (List Char × List Char) :=
  rest?.bind fun rest =>
    (matchNumber rest).map fun n => (n, rest.drop n.length)

/-- One attempt of the marker pattern at the head of the input (see the
doc comment above), alternatives in source order. -/
def tryMarkerNum (s : List Char) : Option (List Char × List Char) :=
  match markerCapture ((matchCI ['v', 'o', 'l', 'u', 'm', 'e'] s).bind matchSpaces1) with
  | some r => some r
  | none =>
    match markerCapture ((matchCI ['c', 'h', 'a', 'p', 't', 'e', 'r'] s).bind matchSpaces1) with
    | some r => some r
    | none =>
      match markerCapture (matchCI ['v', 'o', 'l', '.'] s) with
      | some r => some r
      | none => markerCapture (matchCI ['n', 'o', '.'] s)

/-- The first match of the marker pattern (the regex has no `g` flag), as
its captured number: what `match(...)[1]` — reached via `.pop()` on the
two-element result — yields. -/
def scanMarker : List Char → Option (List Char)
  | [] => none
  | c :: cs =>
    match tryMarkerNum (c :: cs) with
    | some r => some r.1
    | none => scanMarker cs

/-- All full matches of `/\((\d+(?:(?:\.\d+)+)?)\)/g`, in order. -/
def scanParens (fuel : Nat) (s : List Char) : List (List Char) :=
  match fuel with
  | 0 => []
  | fuel + 1 =>
    match s with
    | [] => []
    | '(' :: cs =>
      match matchNumber cs with
      | some n =>
        if (cs.drop n.length).head? = some ')' then
          ('(' :: (n ++ [')'])) :: scanParens fuel (cs.drop (n.length + 1))
        else scanParens fuel cs
      | none => scanParens fuel cs
    | _ :: cs => scanParens fuel cs

/-- All full matches of `/ (\d+(?:(?:\.\d+)+)?) /g` (literal spaces), in
order; scanning resumes after each full match. -/
def scanSpaced (fuel : Nat) (s : List Char) : List (List Char) :=
  match fuel with
  | 0 => []
  | fuel + 1 =>
    match s with
    | [] => []
    | ' ' :: cs =>
      match matchNumber cs with
      | some n =>
        if (cs.drop n.length).head? = some ' ' then
          (' ' :: (n ++ [' '])) :: scanSpaced fuel (cs.drop (n.length + 1))
        else scanSpaced fuel cs
      | none => scanSpaced fuel cs
    | _ :: cs => scanSpaced fuel cs

/-- All full matches of `/(\d+(?:(?:\.\d+)+)?)/g`, in order. -/
def scanNumbers (fuel : Nat) (s : List Char) : List (List Char) :=
  match fuel with
  | 0 => []
  | fuel + 1 =>
    match s with
    | [] => []
    | c :: cs =>
      match matchNumber (c :: cs) with
      | some n => n :: scanNumbers fuel ((c :: cs).drop n.length)
      | none => scanNumbers fuel cs

/-- The first match of `/(?:0+)?(\d+(?:(?:\.\d+)+)?)/g` via `exec`, as its
captured group (`.pop()` of the two-element result): the number at the
first digit of the input, with a leading zero run stripped (keeping one
zero when nothing else is left for `\d+`). -/
def finalExtract : List Char → Option (List Char)
  | [] => none
  | c :: cs =>
    if isDigitChar c then
      let zs := (c :: cs).takeWhile (fun x => x = '0')
      let after := (c :: cs).drop zs.length
      if (after.head?.map isDigitChar).getD false then matchNumber after
      else if zs.isEmpty then matchNumber (c :: cs)
      else matchNumber ((c :: cs).drop (zs.length - 1))
    else finalExtract cs

/-- `getVolumeNumber` (dock.ts 383-404): normalize separators, translate
full-width digits, take the first non-null of the four pattern matches
(`.pop()` of each: the capture of the marker pattern's first match, the
last full match of the other, global, patterns), then run the final
zero-stripping extraction on the selected string (or on the whole
normalized title when no pattern matched). -/
def getVolumeNumber (title : String) : Option String :=
  let volumeString := translateDigits (normalizeSeparators title.data)
  let spaceMatchN : Option (List Char) :=
    match scanMarker volumeString with
    | some capture => some capture
    | none =>
      match (scanParens (volumeString.length + 1) volumeString).getLast? with
      | some m => some m
      | none =>
        match (scanSpaced (volumeString.length + 1) volumeString).getLast? with
        | some m => some m
        | none => (scanNumbers (volumeString.length + 1) volumeString).getLast?
  let volumeString2 := match spaceMatchN with
    | some m => if m.isEmpty then volumeString else m
    | none => volumeString
  (finalExtract volumeString2).map String.mk

/-- The marker pattern's capture together with the rest of the input after
the full match (used for global, `g`-flagged, scanning of the claim's
reading). -/
def tryMarkerNumRest (s : List Char) : Option (List Char × List Char) := tryMarkerNum s

/-- All captures of the marker pattern under global scanning (resuming
after each full match): the claim's "last match" reading needs them. -/
def scanMarkerAll (fuel : Nat) (s : List Char) : List (List Char) :=
  match fuel with
  | 0 => []
  | fuel + 1 =>
    match s with
    | [] => []
    | c :: cs =>
      match tryMarkerNumRest (c :: cs) with
      | some r => r.1 :: scanMarkerAll fuel r.2
      | none => scanMarkerAll fuel cs

/-- The C5 claim as stated: the same extraction, but taking the *last*
match of the explicit-marker pattern as well. -/
def extractOrderingNumberLastMarker (title : String) : Option String :=
  let s := translateDigits (normalizeSeparators title.data)
  let selected : Option (List Char) :=
    match (scanMarkerAll (s.length + 1) s).getLast? with
    | some capture => some capture
    | none =>
      match (scanParens (s.length + 1) s).getLast? with
      | some m => some m
      | none =>
        match (scanSpaced (s.length + 1) s).getLast? with
        | some m => some m
        | none => (scanNumbers (s.length + 1) s).getLast?
  match selected with
  | some m => (finalExtract m).map String.mk
  | none => (finalExtract s).map String.mk

/-- The amended specification of the ordering-number extraction: normalize
locale punctuation to `.`, translate full-width digits, then in priority
order take the captured number of the *first* match of the explicit-marker
pattern, or the *last* match of the parenthesized / space-delimited /
any-number patterns, first non-empty pattern winning, and finally extract
the number with its leading zero run stripped. -/
def extractOrderingNumberSpec (title : String) : Option String :=
  let translated := (title.data.map normalizeChar).map translateChar
  let selected : Option (List Char) :=
    match scanMarker translated with
    | some capture => some capture
    | none =>
      match (scanParens (translated.length + 1) translated).getLast? with
      | some m => some m
      | none =>
        match (scanSpaced (translated.length + 1) translated).getLast? with
        | some m => some m
        | none => (scanNumbers (translated.length + 1) translated).getLast?
  match selected with
  | some m => (finalExtract m).map String.mk
  | none => (finalExtract translated).map String.mk

/-- `translateDigits` maps each character independently. -/
theorem translateDigits_cons (x : Char) (s : List Char) :
    translateDigits (x :: s) = translateDigits [x] ++ translateDigits s := by
  unfold translateDigits japaneseCharacters
  simp [List.enum, List.enumFrom, replaceAllChar]

/-- `translateDigits` on a single character is the character-wise
translation. -/
theorem translateDigits_single (x : Char) : translateDigits [x] = [translateChar x] := by
  by_cases h0 : x = '０'
  · subst h0; decide
  by_cases h1 : x = '１'
  · subst h1; decide
  by_cases h2 : x = '２'
  · subst h2; decide
  by_cases h3 : x = '３'
  · subst h3; decide
  by_cases h4 : x = '４'
  · subst h4; decide
  by_cases h5 : x = '５'
  · subst h5; decide
  by_cases h6 : x = '６'
  · subst h6; decide
  by_cases h7 : x = '７'
  · subst h7; decide
  by_cases h8 : x = '８'
  · subst h8; decide
  by_cases h9 : x = '９'
  · subst h9; decide
  unfold translateDigits japaneseCharacters
  simp [List.enum, List.enumFrom, replaceAllChar, translateChar,
    h0, h1, h2, h3, h4, h5, h6, h7, h8, h9]

/-- The sequential full-width-digit substitutions equal the single
character-wise translation. -/
theorem translateDigits_eq (s : List Char) : translateDigits s = s.map translateChar := by
  induction s with
  | nil => decide
  | cons x rest ih =>
    rw [translateDigits_cons, translateDigits_single, ih]
    rfl

/-- A matched number is never the empty string. -/
theorem matchNumber_ne_nil {s n : List Char} (h : matchNumber s = some n) : n ≠ [] := by
  unfold matchNumber at h
  by_cases hds : (s.takeWhile isDigitChar).isEmpty
  · simp [hds] at h
  · simp only [hds, if_false, Option.some.injEq, Bool.false_eq_true] at h
    subst h
    exact List.append_ne_nil_of_left_ne_nil (by simpa [List.isEmpty_iff] using hds) _

/-- A marker capture is never the empty string. -/
theorem markerCapture_ne_nil {x : Option (List Char)} {r : List Char × List Char}
    (h : markerCapture x = some r) : r.1 ≠ [] := by
  unfold markerCapture at h
  cases x with
  | none => rw [Option.none_bind] at h; cases h
  | some rest =>
    rw [Option.some_bind] at h
    cases hn : matchNumber rest with
    | none => rw [hn] at h; cases h
    | some n =>
      rw [hn] at h
      simp only [Option.map_some, Option.map_some', Option.some.injEq] at h
      subst h
      exact matchNumber_ne_nil hn

/-- A marker-pattern capture is never the empty string. -/
theorem tryMarkerNum_ne_nil {s : List Char} {r : List Char × List Char}
    (h : tryMarkerNum s = some r) : r.1 ≠ [] := by
  unfold tryMarkerNum at h
  repeat' split at h
  all_goals try (injection h with h2; subst h2)
  all_goals first
    | (rename_i heq2; exact markerCapture_ne_nil heq2)
    | exact markerCapture_ne_nil h

/-- The first marker-pattern capture is never the empty string. -/
theorem scanMarker_ne_nil : ∀ {s : List Char} {n : List Char},
    scanMarker s = some n → n ≠ [] := by
  intro s
  induction s with
  | nil => intro n h; cases h
  | cons c cs ih =>
    intro n h
    rw [scanMarker] at h
    cases ht : tryMarkerNum (c :: cs) with
    | some r =>
      rw [ht] at h
      injection h with h2
      subst h2
      exact tryMarkerNum_ne_nil ht
    | none =>
      rw [ht] at h
      exact ih h

/-- Parenthesized-pattern matches are never empty. -/
theorem mem_scanParens_ne_nil : ∀ (fuel : Nat) (s : List Char) (m : List Char),
    m ∈ scanParens fuel s → m ≠ [] := by
  intro fuel
  induction fuel with
  | zero => intro s m hm; rw [scanParens.eq_1] at hm; cases hm
  | succ fuel ih =>
    intro s m hm
    cases s with
    | nil => simp [scanParens] at hm
    | cons c cs =>
      simp only [scanParens] at hm
      split at hm
      · cases hm
      · split at hm
        · split at hm
          · rcases List.mem_cons.mp hm with rfl | hm2
            · simp
            · exact ih _ _ hm2
          · exact ih _ _ hm
        · exact ih _ _ hm
      · exact ih _ _ hm

/-- Space-delimited-pattern matches are never empty. -/
theorem mem_scanSpaced_ne_nil : ∀ (fuel : Nat) (s : List Char) (m : List Char),
    m ∈ scanSpaced fuel s → m ≠ [] := by
  intro fuel
  induction fuel with
  | zero => intro s m hm; rw [scanSpaced.eq_1] at hm; cases hm
  | succ fuel ih =>
    intro s m hm
    cases s with
    | nil => simp [scanSpaced] at hm
    | cons c cs =>
      simp only [scanSpaced] at hm
      split at hm
      · cases hm
      · split at hm
        · split at hm
          · rcases List.mem_cons.mp hm with rfl | hm2
            · simp
            · exact ih _ _ hm2
          · exact ih _ _ hm
        · exact ih _ _ hm
      · exact ih _ _ hm

/-- Any-number-pattern matches are never empty. -/
theorem mem_scanNumbers_ne_nil : ∀ (fuel : Nat) (s : List Char) (m : List Char),
    m ∈ scanNumbers fuel s → m ≠ [] := by
  intro fuel
  induction fuel with
  | zero => intro s m hm; rw [scanNumbers.eq_1] at hm; cases hm
  | succ fuel ih =>
    intro s m hm
    cases s with
    | nil => simp [scanNumbers] at hm
    | cons c cs =>
      simp only [scanNumbers] at hm
      split at hm
      · rcases List.mem_cons.mp hm with rfl | hm2
        · rename_i hn
          exact matchNumber_ne_nil hn
        · exact ih _ _ hm2
      · exact ih _ _ hm


/-- The code's extraction agrees with the amended specification reading on
every title. -/
theorem getVolumeNumber_eq_spec (title : String) :
    getVolumeNumber title = extractOrderingNumberSpec title := by
  unfold getVolumeNumber extractOrderingNumberSpec normalizeSeparators
  rw [translateDigits_eq]
  cases h1 : scanMarker ((title.data.map normalizeChar).map translateChar) with
  | some n =>
    simp only [h1]
    rw [if_neg (by simpa [List.isEmpty_iff] using scanMarker_ne_nil h1)]
  | none =>
    simp only [h1]
    cases h2 : (scanParens (((title.data.map normalizeChar).map translateChar).length + 1)
        ((title.data.map normalizeChar).map translateChar)).getLast? with
    | some m =>
      simp only [h2]
      rw [if_neg (by
        simpa [List.isEmpty_iff] using
          mem_scanParens_ne_nil _ _ m (List.mem_of_mem_getLast? h2))]
    | none =>
      simp only [h2]
      cases h3 : (scanSpaced (((title.data.map normalizeChar).map translateChar).length + 1)
          ((title.data.map normalizeChar).map translateChar)).getLast? with
      | some m =>
        simp only [h3]
        rw [if_neg (by
          simpa [List.isEmpty_iff] using
            mem_scanSpaced_ne_nil _ _ m (List.mem_of_mem_getLast? h3))]
      | none =>
        simp only [h3]
        cases h4 : (scanNumbers (((title.data.map normalizeChar).map translateChar).length + 1)
            ((title.data.map normalizeChar).map translateChar)).getLast? with
        | some m =>
          simp only [h4]
          rw [if_neg (by
            simpa [List.isEmpty_iff] using
              mem_scanNumbers_ne_nil _ _ m (List.mem_of_mem_getLast? h4))]
        | none => simp only [h4]


/-- C5 counterexample: on "Volume 2 Volume 10" the code takes the *first*
match of the explicit-marker pattern (the marker regex has no global flag,
so `.pop()` yields the first match's capture group) and returns "2",
whereas the claim's "last match found by each pattern" reading returns
"10". -/
theorem c5_last_match_counterexample :
    getVolumeNumber "Volume 2 Volume 10" = some "2" ∧
    extractOrderingNumberLastMarker "Volume 2 Volume 10" = some "10" ∧
    getVolumeNumber "Volume 2 Volume 10" ≠
      extractOrderingNumberLastMarker "Volume 2 Volume 10" := by
  refine ⟨by decide, by decide, by decide⟩

/-- C5 (amended): the ordering-number extraction normalizes locale
punctuation to `.`, translates full-width digits to ASCII, tries the four
patterns in priority order — taking the captured number of the *first*
match of the explicit-marker pattern and the *last* match of the
parenthesized, space-delimited and any-number patterns — with the first
non-empty pattern winning, and finally strips any leading zero run; in
particular "Volume 12" extracts to "12" and the full-width "第５巻" to
"5". -/
theorem c5_ordering_number_amended :
    (∀ title : String, getVolumeNumber title = extractOrderingNumberSpec title) ∧
    getVolumeNumber "Volume 12" = some "12" ∧
    getVolumeNumber "第５巻" = some "5" :=
  ⟨getVolumeNumber_eq_spec, by decide, by decide⟩

/-! ## C7 and C8: download packaging (`downloadSelectedCovers`, dock.ts 809-904) -/

/-- A `Series` as decorated in dock.ts (BBCSeries plus owning provider). -/
structure Series where
  id : String
  type : String
  title : String
  thumbnail : String
  bookType : Option String
  publicationType : Option String
  provider : Provider
deriving Repr, DecidableEq

/-- The `textVariables` token vocabulary (settings.svelte.ts). -/
def textVariables_coverUrl : String := "COVER_URL"

/-- Token name for the volume name. -/
def textVariables_volumeName : String := "VOLUME_NAME"

/-- Token name for the volume number. -/
def textVariables_volumeNumber : String := "VOLUME_NUMBER"

/-- Token name for the page name. -/
def textVariables_bookPageName : String := "BOOK_PAGE_NAME"

/-- Token name for the page number. -/
def textVariables_bookPageNumber : String := "BOOK_PAGE_NUMBER"

/-- Token name for the book title. -/
def textVariables_bookTitle : String := "BOOK_TITLE"

/-- Token name for the book id. -/
def textVariables_bookId : String := "BOOK_ID"

/-- Token name for the series title. -/
def textVariables_seriesTitle : String := "SERIES_TITLE"

/-- Token name for the series thumbnail URL. -/
def textVariables_seriesThumbnailUrl : String := "SERIES_THUMBNAIL_URL"

/-- Token name for the series publication type. -/
def textVariables_seriesPublicationType : String := "SERIES_PUBLICATION_TYPE"

/-- Token name for the series book type. -/
def textVariables_seriesBookType : String := "SERIES_BOOK_TYPE"

/-- Token name for the series type. -/
def textVariables_seriesType : String := "SERIES_TYPE"

/-- Token name for the series id. -/
def textVariables_seriesId : String := "SERIES_ID"

/-- Token name for the provider name. -/
def textVariables_providerName : String := "PROVIDER_NAME"

/-- Token name for the provider id. -/
def textVariables_providerId : String := "PROVIDER_ID"

/-- Token name for the provider language name. -/
def textVariables_providerLanguageName : String := "PROVIDER_LANGUAGE_NAME"

/-- Token name for the provider language code. -/
def textVariables_providerLanguageCode : String := "PROVIDER_LANGUAGE_CODE"

/-- Token name for the cover quality score. -/
def textVariables_coverQualityScore : String := "COVER_QUALITY_SCORE"

/-- Token name for the cover width. -/
def textVariables_coverWidth : String := "COVER_WIDTH"

/-- Token name for the cover height. -/
def textVariables_coverHeight : String := "COVER_HEIGHT"

/-- Token name for the crop status. -/
def textVariables_coverCropStatus : String := "COVER_CROP_STATUS"

/-- Token name for the file extension. -/
def textVariables_fileExtension : String := "FILE_EXTENSION"

/-- Replace every occurrence of a non-empty pattern in a string (the effect
of one token substitution).  Fuel-structural scan; callers pass the input
length plus one, sufficient since every step consumes at least one
character. -/
def replaceAllAux (fuel : Nat) (s pat rep : List Char) : List Char :=
  match fuel with
  | 0 => s
  | fuel + 1 =>
    match s with
    | [] => []
    | c :: cs =>
      if pat.isPrefixOf (c :: cs) then
        rep ++ replaceAllAux fuel ((c :: cs).drop pat.length) pat rep
      else c :: replaceAllAux fuel cs pat rep

/-- Replace every occurrence of a pattern by a replacement (empty patterns
are left alone; no token is empty). -/
def replaceAllStr (s pat rep : String) : String :=
  if pat.data.isEmpty then s
  else String.mk (replaceAllAux (s.data.length + 1) s.data pat.data rep.data)

/-- Modelled from the spec: `replaceTextVariables` (in utils.ts, missing
from the sources) — "Token substitution is literal string replacement — no
escaping, no recursive expansion, no conditional logic."  Each (token,
value) pair is substituted in order. -/
def replaceTextVariables (text : String) (vars : List (String × String)) : String :=
  vars.foldl (fun t kv => replaceAllStr t kv.1 kv.2) text

/-- Modelled from the spec: `getLocaleName` (in utils.ts, missing from the
sources) — the display name of a locale code, some deterministic function
of the code; modelled as the code itself. -/
def getLocaleName (locale : String) : String := locale

/-- Modelled from the spec: `filterFilename` (in utils.ts, missing from the
sources) — the spec's packaging contract (section 4.6) describes the output
path as the rendered templates with no further transformation, so it is
modelled as the identity. -/
def filterFilename (s : String) : String := s

/-- `parseTextVariables` (dock.ts 294-339): build the (token, value) list
from the book, its series (matched by series id and provider id) and the
extension, then substitute. -/
def parseTextVariables (allSeries : List Series) (text : String)
    (book? : Option Book) (extension? : Option String) : String :=
  let bookVars : List (String × String) :=
    match book? with
    | none => []
    | some book =>
      let baseVars :=
        [ (textVariables_coverUrl, book.cover),
          (textVariables_volumeName, book.volumeName),
          (textVariables_volumeNumber, book.volumeNumber),
          (textVariables_bookTitle, book.title),
          (textVariables_bookId, book.id),
          (textVariables_providerName, book.provider.name),
          (textVariables_providerId, book.provider.id),
          (textVariables_providerLanguageName, getLocaleName book.provider.locale),
          (textVariables_providerLanguageCode, book.provider.locale),
          (textVariables_bookPageNumber, toString (book.selectedPage.getD 0)),
          (textVariables_bookPageName,
            match book.selectedPage with
            | some n => if n ≠ 0 then "Page " ++ toString n else ""
            | none => "") ]
      let seriesVars :=
        match allSeries.find? (fun s =>
            book.seriesId = some s.id ∧ s.provider.id = book.provider.id) with
        | some bookSeries =>
          [ (textVariables_seriesTitle, bookSeries.title),
            (textVariables_seriesThumbnailUrl, bookSeries.thumbnail),
            (textVariables_seriesPublicationType, bookSeries.publicationType.getD "digital"),
            (textVariables_seriesBookType, bookSeries.bookType.getD ""),
            (textVariables_seriesType, bookSeries.type),
            (textVariables_seriesId, bookSeries.id) ]
        | none => [(textVariables_seriesId, book.seriesId.getD "0")]
      let scoreVars :=
        [ (textVariables_coverQualityScore,
            match book.coverQualityScore with
            | some q => toString q
            | none => "0"),
          (textVariables_coverWidth,
            match book.coverWidth with
            | some w => toString w
            | none => "0"),
          (textVariables_coverHeight,
            match book.coverHeight with
            | some h => toString h
            | none => "0"),
          (textVariables_coverCropStatus,
            if book.coverIsCropped then "cropped" else "uncropped") ]
      baseVars ++ seriesVars ++ scoreVars
  let extVars : List (String × String) :=
    match extension? with
    | none => []
    | some extension => [(textVariables_fileExtension, extension)]
  replaceTextVariables text (bookVars ++ extVars)

/-- JS `String.prototype.startsWith`, over the character lists. -/
def strStartsWith (s p : String) : Bool := p.data.isPrefixOf s.data

/-- The sniffed file type of a downloaded buffer (the external `file-type`
package's result: extension and mime type). -/
structure FileType where
  ext : String
  mime : String
deriving Repr, DecidableEq

/-- The environment of one packaging run: the cover bytes returned by the
chunked byte fetch (positionally aligned with the selected books; `none`
models a missing buffer) and the file-type sniffer.  Buffers are opaque
tokens. -/
structure RunEnv where
  images : List (Option Nat)
  sniff : Nat → Option FileType

/-- The template settings read by the packaging run
(`coverPathSetting.value`, `coverFilenameSetting.value`,
`zipFilenameSetting.value`). -/
structure RunSettings where
  coverPath : String
  coverFilename : String
  zipFilename : String
deriving Repr, DecidableEq

/-- JS `array.lastIndexOf`-style last position of a character, `-1` when
absent. -/
def lastIdxAux : List Char → Nat → Int → Int
  | [], _, best => best
  | c :: cs, i, best => lastIdxAux cs (i + 1) (if c = '.' then (i : Int) else best)

/-- Append ` (n)` before the extension (after the last dot when its index
is positive), or at the end when there is none (dock.ts 860-877). -/
def insertCounterSuffix (name : String) (n : Nat) : String :=
  let lastDotIndex := lastIdxAux name.data 0 (-1)
  if lastDotIndex > 0 then
    let k := lastDotIndex.toNat
    String.mk (name.data.take k) ++ " (" ++ toString n ++ ")" ++ String.mk (name.data.drop k)
  else name ++ " (" ++ toString n ++ ")"

/-- JS `imageKey.split('/')`. -/
def splitOnSlash : List Char → List (List Char)
  | [] => [[]]
  | '/' :: cs => [] :: splitOnSlash cs
  | c :: cs =>
    match splitOnSlash cs with
    | [] => [[c]]
    | g :: gs => (c :: g) :: gs

/-- `imageKey.split('/').pop() || 'cover.jpg'`: the leaf filename. -/
def leafName (k : String) : String :=
  let leaf := ((splitOnSlash k.data).getLast?).getD []
  if leaf.isEmpty then "cover.jpg" else String.mk leaf

/-- Lookup in the `knownFilenames` record. -/
def lookupCounter (m : List (String × Nat)) (k : String) : Option Nat :=
  (m.find? (fun e => e.1 == k)).map (fun e => e.2)

/-- Assignment into the `knownFilenames` record (new keys are appended,
existing keys updated in place, as JS object assignment). -/
def setCounter (m : List (String × Nat)) (k : String) (v : Nat) : List (String × Nat) :=
  if m.any (fun e => e.1 == k) then m.map (fun e => if e.1 == k then (e.1, v) else e)
  else m ++ [(k, v)]

/-- Assignment into the `imagesToZip` record (JS object: first-insertion
key order, later assignments overwrite in place). -/
def setEntry (m : List (String × Nat)) (k : String) (v : Nat) : List (String × Nat) :=
  if m.any (fun e => e.1 == k) then m.map (fun e => if e.1 == k then (e.1, v) else e)
  else m ++ [(k, v)]

/-- The mutable state of one packaging loop: the collision counters, the
zip record, and (as an observation of the loop's `imageFileName` values)
the assigned names in processing order. -/
structure DlState where
  knownFilenames : List (String × Nat)
  imagesToZip : List (String × Nat)
  assignedNames : List String
deriving Repr, DecidableEq

/-- The rendered base output path of a book
(`filterFilename(path + '/' + filename)`, dock.ts 844-849). -/
def baseFileName (allSeries : List Series) (s : RunSettings) (book : Book)
    (ext : String) : String :=
  let imagePath := parseTextVariables allSeries s.coverPath (some book) none
  filterFilename
    ((if imagePath ≠ "" then imagePath ++ "/" else "") ++
      parseTextVariables allSeries s.coverFilename (some book) (some ext))

/-- One iteration of the packaging loop (dock.ts 819-880): skip missing
buffers and non-image sniffs; otherwise render the base name, resolve the
collision counter (first use initializes the counter to 0 and keeps the
plain name; a reuse increments it and appends the counter suffix), and
assign the buffer into the zip record. -/
def processBook (env : RunEnv) (s : RunSettings) (allSeries : List Series)
    (st : DlState) (idx : Nat) (book : Book) : DlState :=
  match env.images.getD idx none with
  | none => st
  | some imageBuffer =>
    match env.sniff imageBuffer with
    | none => st
    | some ft =>
      if ¬ strStartsWith ft.mime "image/" then st
      else
        let base := baseFileName allSeries s book ft.ext
        match lookupCounter st.knownFilenames base with
        | none =>
          { knownFilenames := setCounter st.knownFilenames base 0
            imagesToZip := setEntry st.imagesToZip base imageBuffer
            assignedNames := st.assignedNames ++ [base] }
        | some n =>
          let newName := filterFilename (insertCounterSuffix base (n + 1))
          { knownFilenames := setCounter st.knownFilenames base (n + 1)
            imagesToZip := setEntry st.imagesToZip newName imageBuffer
            assignedNames := st.assignedNames ++ [newName] }

/-- The packaging loop over the selected books with their indices. -/
def processBooks (env : RunEnv) (s : RunSettings) (allSeries : List Series)
    (idx : Nat) (books : List Book) (st : DlState) : DlState :=
  match books with
  | [] => st
  | b :: rest =>
    processBooks env s allSeries (idx + 1) rest (processBook env s allSeries st idx b)

/-- A produced artifact: a directly saved file, or a zip archive with its
entries and compression level. -/
inductive SaveEffect where
  | saveFile (filename : String) (bytes : Nat)
  | saveZip (filename : String) (entries : List (String × Nat)) (level : Nat)
deriving Repr, DecidableEq

/-- `downloadSelectedCovers` (dock.ts 809-904): a no-op when a download is
in flight; otherwise process every selected book, then save nothing, a
single file under its leaf filename, or one uncompressed (`level 0`) zip
named by the rendered zip template (default `covers.zip` when it renders
empty); the collision counters are reset at the end of the run.  Returns
the final collision counters and the artifacts saved. -/
def downloadSelectedCovers (env : RunEnv) (s : RunSettings) (allSeries : List Series)
    (selectedBooks : List Book) (knownFilenames0 : List (String × Nat))
    (isDownloading : Bool) : List (String × Nat) × List SaveEffect :=
  if isDownloading then (knownFilenames0, [])
  else
    let final := processBooks env s allSeries 0 selectedBooks
      { knownFilenames := knownFilenames0, imagesToZip := [], assignedNames := [] }
    let imagesToZipTotal := final.imagesToZip.length
    let effects :=
      if imagesToZipTotal = 0 then []
      else if imagesToZipTotal = 1 then
        match final.imagesToZip with
        | [(imageKey, image)] => [SaveEffect.saveFile (leafName imageKey) image]
        | _ => []
      else
        let zipName := parseTextVariables allSeries s.zipFilename none (some "zip")
        [SaveEffect.saveZip (if zipName = "" then "covers.zip" else zipName)
          final.imagesToZip 0]
    ([], effects)

/-- The eligible (buffer present, sniffed as an image) books of a run,
as (rendered base name, buffer) pairs in processing order. -/
def eligibleEntries (env : RunEnv) (s : RunSettings) (allSeries : List Series) :
    Nat → List Book → List (String × Nat)
  | _, [] => []
  | idx, b :: rest =>
    match env.images.getD idx none with
    | none => eligibleEntries env s allSeries (idx + 1) rest
    | some buf =>
      match env.sniff buf with
      | none => eligibleEntries env s allSeries (idx + 1) rest
      | some ft =>
        if ¬ strStartsWith ft.mime "image/" then eligibleEntries env s allSeries (idx + 1) rest
        else (baseFileName allSeries s b ft.ext, buf) :: eligibleEntries env s allSeries (idx + 1) rest

/-- The specification's collision resolution: a rendered-filename to
counter map, initialized to 0 on first use and incremented on each reuse,
a colliding name getting the counter suffix. -/
def collisionResolveGo : List String → List (String × Nat) → List String
  | [], _ => []
  | f :: rest, known =>
    match lookupCounter known f with
    | none => f :: collisionResolveGo rest (setCounter known f 0)
    | some n =>
      filterFilename (insertCounterSuffix f (n + 1)) ::
        collisionResolveGo rest (setCounter known f (n + 1))

/-- The collision-resolved names of a run that starts with fresh
counters. -/
def collisionResolve (names : List String) : List String := collisionResolveGo names []

/-- Sequential JS-object assignment of (name, buffer) pairs. -/
def applyEntries (z : List (String × Nat)) : List (String × Nat) → List (String × Nat)
  | [] => z
  | (k, v) :: rest => applyEntries (setEntry z k v) rest


/-- Unfolding of `eligibleEntries` on a cons cell. -/
theorem elig_cons (env : RunEnv) (s : RunSettings) (allSeries : List Series)
    (idx : Nat) (b : Book) (rest : List Book) :
    eligibleEntries env s allSeries idx (b :: rest) =
      (match env.images.getD idx none with
      | none => eligibleEntries env s allSeries (idx + 1) rest
      | some buf =>
        match env.sniff buf with
        | none => eligibleEntries env s allSeries (idx + 1) rest
        | some ft =>
          if ¬ strStartsWith ft.mime "image/" then eligibleEntries env s allSeries (idx + 1) rest
          else (baseFileName allSeries s b ft.ext, buf) ::
            eligibleEntries env s allSeries (idx + 1) rest) := by
  rw [eligibleEntries]

/-- The packaging loop assigns exactly the collision-resolved names (in
order) and builds the zip record by assigning the buffers under them. -/
theorem processBooks_char (env : RunEnv) (s : RunSettings) (allSeries : List Series) :
    ∀ (books : List Book) (idx : Nat) (st : DlState),
    (processBooks env s allSeries idx books st).assignedNames =
      st.assignedNames ++
        collisionResolveGo ((eligibleEntries env s allSeries idx books).map (fun p => p.1))
          st.knownFilenames ∧
    (processBooks env s allSeries idx books st).imagesToZip =
      applyEntries st.imagesToZip
        ((collisionResolveGo ((eligibleEntries env s allSeries idx books).map (fun p => p.1))
            st.knownFilenames).zip
          ((eligibleEntries env s allSeries idx books).map (fun p => p.2))) := by
  intro books
  induction books with
  | nil => intro idx st; simp [processBooks, eligibleEntries, collisionResolveGo, applyEntries]
  | cons b rest ih =>
    intro idx st
    cases him : env.images.getD idx none with
    | none =>
      have helig : eligibleEntries env s allSeries idx (b :: rest) =
          eligibleEntries env s allSeries (idx + 1) rest := by
        simp only [eligibleEntries, him]
      have hpb : processBook env s allSeries st idx b = st := by
        simp only [processBook, him]
      rw [processBooks, helig, hpb]
      exact ih (idx + 1) st
    | some buf =>
      cases hsn : env.sniff buf with
      | none =>
        have helig : eligibleEntries env s allSeries idx (b :: rest) =
            eligibleEntries env s allSeries (idx + 1) rest := by
          simp only [eligibleEntries, him, hsn]
        have hpb : processBook env s allSeries st idx b = st := by
          simp only [processBook, him, hsn]
        rw [processBooks, helig, hpb]
        exact ih (idx + 1) st
      | some ft =>
        by_cases hmime : strStartsWith ft.mime "image/"
        · have helig : eligibleEntries env s allSeries idx (b :: rest) =
              (baseFileName allSeries s b ft.ext, buf) ::
                eligibleEntries env s allSeries (idx + 1) rest := by
            simp only [eligibleEntries, him, hsn]
            rw [if_neg (by simp [hmime])]
          rw [processBooks, helig]
          cases hlc : lookupCounter st.knownFilenames (baseFileName allSeries s b ft.ext) with
          | none =>
            have hpb : processBook env s allSeries st idx b =
                { knownFilenames := setCounter st.knownFilenames
                    (baseFileName allSeries s b ft.ext) 0
                  imagesToZip := setEntry st.imagesToZip
                    (baseFileName allSeries s b ft.ext) buf
                  assignedNames := st.assignedNames ++ [baseFileName allSeries s b ft.ext] } := by
              simp only [processBook, him, hsn, hlc]
              rw [if_neg (by simp [hmime])]
            rw [hpb]
            obtain ⟨ih1, ih2⟩ := ih (idx + 1)
              { knownFilenames := setCounter st.knownFilenames
                  (baseFileName allSeries s b ft.ext) 0
                imagesToZip := setEntry st.imagesToZip
                  (baseFileName allSeries s b ft.ext) buf
                assignedNames := st.assignedNames ++ [baseFileName allSeries s b ft.ext] }
            rw [ih1, ih2]
            simp only [List.map_cons, collisionResolveGo, hlc, List.zip_cons_cons,
              applyEntries, List.append_assoc, List.cons_append, List.nil_append]
            trivial
          | some n =>
            have hpb : processBook env s allSeries st idx b =
                { knownFilenames := setCounter st.knownFilenames
                    (baseFileName allSeries s b ft.ext) (n + 1)
                  imagesToZip := setEntry st.imagesToZip
                    (filterFilename (insertCounterSuffix (baseFileName allSeries s b ft.ext)
                      (n + 1))) buf
                  assignedNames := st.assignedNames ++
                    [filterFilename (insertCounterSuffix (baseFileName allSeries s b ft.ext)
                      (n + 1))] } := by
              simp only [processBook, him, hsn, hlc]
              rw [if_neg (by simp [hmime])]
            rw [hpb]
            obtain ⟨ih1, ih2⟩ := ih (idx + 1)
              { knownFilenames := setCounter st.knownFilenames
                  (baseFileName allSeries s b ft.ext) (n + 1)
                imagesToZip := setEntry st.imagesToZip
                  (filterFilename (insertCounterSuffix (baseFileName allSeries s b ft.ext)
                    (n + 1))) buf
                assignedNames := st.assignedNames ++
                  [filterFilename (insertCounterSuffix (baseFileName allSeries s b ft.ext)
                    (n + 1))] }
            rw [ih1, ih2]
            simp only [List.map_cons, collisionResolveGo, hlc, List.zip_cons_cons,
              applyEntries, List.append_assoc, List.cons_append, List.nil_append]
            trivial
        · have helig : eligibleEntries env s allSeries idx (b :: rest) =
              eligibleEntries env s allSeries (idx + 1) rest := by
            simp only [eligibleEntries, him, hsn]
            rw [if_pos (by simp [hmime])]
          have hpb : processBook env s allSeries st idx b = st := by
            simp only [processBook, him, hsn]
            rw [if_pos (by simp [hmime])]
          rw [processBooks, helig, hpb]
          exact ih (idx + 1) st

theorem mem_setEntry {z : List (String × Nat)} {k : String} {v : Nat} {e : String × Nat}
    (h : e ∈ setEntry z k v) : e = (k, v) ∨ e ∈ z := by
  unfold setEntry at h
  by_cases ha : z.any (fun x => x.1 == k)
  · rw [if_pos ha] at h
    obtain ⟨e', he', heq⟩ := List.mem_map.mp h
    by_cases hk : e'.1 == k
    · rw [if_pos hk] at heq
      left
      rw [← heq, beq_iff_eq.mp hk]
    · rw [if_neg hk] at heq
      right
      rw [← heq]
      exact he'
  · rw [if_neg ha] at h
    rcases List.mem_append.mp h with h2 | h2
    · exact Or.inr h2
    · simp only [List.mem_singleton] at h2
      exact Or.inl h2

theorem keys_setEntry_super {z : List (String × Nat)} {k : String} {v : Nat} :
    (∀ k' ∈ z.map (fun e => e.1), k' ∈ (setEntry z k v).map (fun e => e.1)) ∧
    k ∈ (setEntry z k v).map (fun e => e.1) := by
  unfold setEntry
  by_cases ha : z.any (fun x => x.1 == k)
  · rw [if_pos ha]
    constructor
    · intro k' hk'
      obtain ⟨e', he', heq⟩ := List.mem_map.mp hk'
      apply List.mem_map.mpr
      refine ⟨if e'.1 == k then (e'.1, v) else e', List.mem_map_of_mem _ he', ?_⟩
      by_cases hk : e'.1 == k
      · simp only [if_pos hk]
        rw [← heq]
      · simp only [if_neg hk]
        exact heq
    · obtain ⟨e', he', hk⟩ := List.any_eq_true.mp ha
      apply List.mem_map.mpr
      exact ⟨(e'.1, v), List.mem_map.mpr ⟨e', he', by rw [if_pos hk]⟩, beq_iff_eq.mp hk⟩
  · rw [if_neg ha]
    constructor
    · intro k' hk'
      simp only [List.map_append, List.mem_append]
      exact Or.inl hk'
    · simp

theorem keys_applyEntries_super :
    ∀ (ps : List (String × Nat)) (z : List (String × Nat)),
    (∀ k' ∈ z.map (fun e => e.1), k' ∈ (applyEntries z ps).map (fun e => e.1)) ∧
    (∀ k' ∈ ps.map (fun e => e.1), k' ∈ (applyEntries z ps).map (fun e => e.1)) := by
  intro ps
  induction ps with
  | nil => intro z; simp [applyEntries]
  | cons p rest ih =>
    intro z
    obtain ⟨k, v⟩ := p
    rw [applyEntries]
    obtain ⟨ihz, ihp⟩ := ih (setEntry z k v)
    constructor
    · intro k' hk'
      exact ihz k' (keys_setEntry_super.1 k' hk')
    · intro k' hk'
      simp only [List.map_cons, List.mem_cons] at hk'
      rcases hk' with rfl | hk'
      · exact ihz k' keys_setEntry_super.2
      · exact ihp k' hk'

theorem values_applyEntries :
    ∀ (ps : List (String × Nat)) (z : List (String × Nat)) (e : String × Nat),
    e ∈ applyEntries z ps → e.2 ∈ z.map (fun x => x.2) ∨ e.2 ∈ ps.map (fun x => x.2) := by
  intro ps
  induction ps with
  | nil => intro z e h; rw [applyEntries] at h; exact Or.inl (List.mem_map_of_mem _ h)
  | cons p rest ih =>
    intro z e h
    obtain ⟨k, v⟩ := p
    rw [applyEntries] at h
    rcases ih (setEntry z k v) e h with h2 | h2
    · obtain ⟨e', he', heq⟩ := List.mem_map.mp h2
      rcases mem_setEntry he' with rfl | he2
      · right
        simp [← heq]
      · left
        rw [← heq]
        exact List.mem_map_of_mem _ he2
    · right
      simp only [List.map_cons, List.mem_cons]
      exact Or.inr h2

theorem applyEntries_of_disjoint :
    ∀ (ps : List (String × Nat)) (z : List (String × Nat)),
    (ps.map (fun e => e.1)).Nodup →
    (∀ k ∈ ps.map (fun e => e.1), k ∉ z.map (fun e => e.1)) →
    applyEntries z ps = z ++ ps := by
  intro ps
  induction ps with
  | nil => intro z _ _; simp [applyEntries]
  | cons p rest ih =>
    intro z hnd hdis
    obtain ⟨k, v⟩ := p
    rw [applyEntries]
    have hkz : ¬ z.any (fun x => x.1 == k) := by
      intro ha
      obtain ⟨e', he', hk⟩ := List.any_eq_true.mp ha
      exact hdis k (by simp) (List.mem_map.mpr ⟨e', he', beq_iff_eq.mp hk⟩)
    have hse : setEntry z k v = z ++ [(k, v)] := by
      unfold setEntry
      rw [if_neg hkz]
    rw [hse]
    rw [ih (z ++ [(k, v)]) (by simpa using hnd.of_cons) ?_]
    · simp
    · intro k' hk' hk'z
      simp only [List.map_append, List.mem_append] at hk'z
      rcases hk'z with h2 | h2
      · exact hdis k' (by simp [hk']) h2
      · simp only [List.map_cons, List.map_nil, List.mem_singleton] at h2
        subst h2
        simp only [List.map_cons, List.nodup_cons] at hnd
        exact hnd.1 hk'

theorem toDigitsCore_length_ge (b : Nat) :
    ∀ (f n : Nat) (l : List Char), l.length ≤ (Nat.toDigitsCore b f n l).length := by
  intro f
  induction f with
  | zero => intro n l; simp [Nat.toDigitsCore]
  | succ f ih =>
    intro n l
    rw [Nat.toDigitsCore]
    split
    · simp
    · calc l.length ≤ (Nat.digitChar (n % b) :: l).length := by simp
        _ ≤ _ := ih (n / b) (Nat.digitChar (n % b) :: l)

theorem toString_nat_length_pos (n : Nat) : 1 ≤ (toString n).length := by
  show 1 ≤ (Nat.repr n).length
  unfold Nat.repr Nat.toDigits
  rw [Nat.toDigitsCore]
  split
  · simp [List.asString]
  · calc (1 : Nat) = [Nat.digitChar (n % 10)].length := by simp
      _ ≤ (Nat.toDigitsCore 10 n (n / 10) [Nat.digitChar (n % 10)]).length :=
        toDigitsCore_length_ge 10 n (n / 10) _
      _ = _ := by simp [List.asString]

theorem insertCounterSuffix_length (f : String) (n : Nat) :
    f.length < (insertCounterSuffix f n).length := by
  have ht := toString_nat_length_pos n
  unfold insertCounterSuffix
  dsimp only
  split
  · simp only [String.length_append]
    have h1 : (String.mk (f.data.take (lastIdxAux f.data 0 (-1)).toNat)).length =
        min (lastIdxAux f.data 0 (-1)).toNat f.data.length := by
      show (f.data.take (lastIdxAux f.data 0 (-1)).toNat).length = _
      exact List.length_take _ _
    have h2 : (String.mk (f.data.drop (lastIdxAux f.data 0 (-1)).toNat)).length =
        f.data.length - (lastIdxAux f.data 0 (-1)).toNat := by
      show (f.data.drop (lastIdxAux f.data 0 (-1)).toNat).length = _
      exact List.length_drop _ _
    have hf : f.length = f.data.length := rfl
    have hp : (" (" : String).length = 2 := by decide
    have hq : (")" : String).length = 1 := by decide
    rw [h1, h2, hp, hq, hf]
    omega
  · simp only [String.length_append]
    have hp : (" (" : String).length = 2 := by decide
    have hq : (")" : String).length = 1 := by decide
    rw [hp, hq]
    omega

theorem insertCounterSuffix_ne (f : String) (n : Nat) : insertCounterSuffix f n ≠ f := by
  intro h
  have := insertCounterSuffix_length f n
  rw [h] at this
  omega

theorem collisionResolve_two (f1 f2 : String) (rest : List String) :
    ∃ a2 t, collisionResolve (f1 :: f2 :: rest) = f1 :: a2 :: t ∧ a2 ≠ f1 := by
  unfold collisionResolve
  rw [collisionResolveGo]
  have hl1 : lookupCounter [] f1 = none := by simp [lookupCounter]
  rw [hl1]
  rw [collisionResolveGo]
  by_cases hf : f2 = f1
  · subst hf
    have hl2 : lookupCounter (setCounter [] f2 0) f2 = some 0 := by
      simp [setCounter, lookupCounter]
    rw [hl2]
    exact ⟨_, _, rfl, by simpa [filterFilename] using insertCounterSuffix_ne f2 1⟩
  · have hl2 : lookupCounter (setCounter [] f1 0) f2 = none := by
      have hbe : (f1 == f2) = false := beq_eq_false_iff_ne.mpr (Ne.symm hf)
      simp [setCounter, lookupCounter, List.find?, hbe]
    rw [hl2]
    exact ⟨_, _, rfl, hf⟩

theorem two_mem_length {α : Type} {l : List α} {a b : α} (ha : a ∈ l) (hb : b ∈ l)
    (hab : a ≠ b) : 2 ≤ l.length := by
  cases l with
  | nil => cases ha
  | cons x t =>
    cases t with
    | nil =>
      simp only [List.mem_singleton] at ha hb
      exact absurd (ha.trans hb.symm) hab
    | cons y u => simp

theorem c8_collision_test (env : RunEnv) (s : RunSettings) (allSeries : List Series)
    (books : List Book) :
    (processBooks env s allSeries 0 books
        { knownFilenames := [], imagesToZip := [], assignedNames := [] }).assignedNames =
      collisionResolve ((eligibleEntries env s allSeries 0 books).map (fun p => p.1)) ∧
    (downloadSelectedCovers env s allSeries books [] false).1 = [] ∧
    collisionResolve ["name.jpg", "name.jpg"] = ["name.jpg", "name (1).jpg"] ∧
    insertCounterSuffix "name" 1 = "name (1)" := by
  refine ⟨?_, ?_, by decide, by decide⟩
  · have h := (processBooks_char env s allSeries books 0
      { knownFilenames := [], imagesToZip := [], assignedNames := [] }).1
    simpa [collisionResolve] using h
  · simp [downloadSelectedCovers]

theorem collisionResolveGo_length : ∀ (names : List String) (known : List (String × Nat)),
    (collisionResolveGo names known).length = names.length := by
  intro names
  induction names with
  | nil => intro known; simp [collisionResolveGo]
  | cons f rest ih =>
    intro known
    rw [collisionResolveGo]
    cases lookupCounter known f <;> simp [ih]

/-- C7 (amended): with zero eligible images nothing is saved; with exactly
one it is saved directly under its leaf filename; with two or more exactly
one uncompressed zip is produced, named by the rendered template or
covers.zip when it renders empty, every entry value an eligible buffer
(none of the skipped ones), and containing exactly every eligible entry
whenever the collision-resolved names are pairwise distinct. -/
theorem c7_packaging_test (env : RunEnv) (s : RunSettings) (allSeries : List Series)
    (books : List Book) :
    (eligibleEntries env s allSeries 0 books = [] →
      (downloadSelectedCovers env s allSeries books [] false).2 = []) ∧
    (∀ f buf, eligibleEntries env s allSeries 0 books = [(f, buf)] →
      (downloadSelectedCovers env s allSeries books [] false).2 =
        [SaveEffect.saveFile (leafName f) buf]) ∧
    (2 ≤ (eligibleEntries env s allSeries 0 books).length →
      ∃ entries,
        (downloadSelectedCovers env s allSeries books [] false).2 =
          [SaveEffect.saveZip
            (if parseTextVariables allSeries s.zipFilename none (some "zip") = "" then
              "covers.zip"
             else parseTextVariables allSeries s.zipFilename none (some "zip")) entries 0] ∧
        (∀ e ∈ entries, e.2 ∈ (eligibleEntries env s allSeries 0 books).map (fun p => p.2)) ∧
        ((collisionResolve
            ((eligibleEntries env s allSeries 0 books).map (fun p => p.1))).Nodup →
          entries =
            (collisionResolve
              ((eligibleEntries env s allSeries 0 books).map (fun p => p.1))).zip
              ((eligibleEntries env s allSeries 0 books).map (fun p => p.2)))) := by
  have hchar := processBooks_char env s allSeries books 0
    { knownFilenames := [], imagesToZip := [], assignedNames := [] }
  obtain ⟨hassigned, hzip⟩ := hchar
  refine ⟨?_, ?_, ?_⟩
  · intro helig
    unfold downloadSelectedCovers
    rw [if_neg (by simp)]
    simp only [hzip, helig]
    simp [collisionResolveGo, applyEntries]
  · intro f buf helig
    unfold downloadSelectedCovers
    rw [if_neg (by simp)]
    simp only [hzip, helig]
    have h1 : collisionResolveGo [f] [] = [f] := by
      simp [collisionResolveGo, lookupCounter]
    simp only [List.map_cons, List.map_nil, h1, List.zip_cons_cons, List.zip_nil_right,
      applyEntries, setEntry, List.any_nil, List.nil_append]
    simp
  · intro hlen
    obtain ⟨f1, rest1, h1⟩ := List.exists_cons_of_ne_nil
      (l := eligibleEntries env s allSeries 0 books)
      (fun h0 => by rw [h0] at hlen; simp at hlen)
    obtain ⟨f2, rest2, h2⟩ := List.exists_cons_of_ne_nil
      (l := rest1) (fun h0 => by rw [h1, h0] at hlen; simp at hlen)
    set elig := eligibleEntries env s allSeries 0 books with helig
    have hmapfst : elig.map (fun p => p.1) = f1.1 :: f2.1 :: rest2.map (fun p => p.1) := by
      rw [h1, h2]; simp
    have hmapsnd : elig.map (fun p => p.2) = f1.2 :: f2.2 :: rest2.map (fun p => p.2) := by
      rw [h1, h2]; simp
    obtain ⟨a2, t, hcr, ha2⟩ := collisionResolve_two f1.1 f2.1 (rest2.map (fun p => p.1))
    have hZ := hzip
    rw [hmapfst] at hZ
    rw [show collisionResolveGo (f1.1 :: f2.1 :: rest2.map (fun p => p.1)) [] =
        collisionResolve (f1.1 :: f2.1 :: rest2.map (fun p => p.1)) from rfl, hcr] at hZ
    rw [hmapsnd] at hZ
    -- the zip record has at least the two distinct keys f1.1 and a2
    have hkeys := keys_applyEntries_super
      ((f1.1 :: a2 :: t).zip (f1.2 :: f2.2 :: rest2.map (fun p => p.2))) []
    have hk1 : f1.1 ∈ ((f1.1 :: a2 :: t).zip
        (f1.2 :: f2.2 :: rest2.map (fun p => p.2))).map (fun e => e.1) := by
      simp [List.zip_cons_cons]
    have hk2 : a2 ∈ ((f1.1 :: a2 :: t).zip
        (f1.2 :: f2.2 :: rest2.map (fun p => p.2))).map (fun e => e.1) := by
      simp [List.zip_cons_cons]
    have hZlen : 2 ≤ (processBooks env s allSeries 0 books
        { knownFilenames := [], imagesToZip := [], assignedNames := [] }).imagesToZip.length := by
      have hm1 := hkeys.2 f1.1 hk1
      have hm2 := hkeys.2 a2 hk2
      rw [← hZ] at hm1 hm2
      have := two_mem_length hm2 hm1 ha2
      calc 2 ≤ ((processBooks env s allSeries 0 books
            { knownFilenames := [], imagesToZip := [], assignedNames := [] }).imagesToZip.map
              (fun e => e.1)).length := this
        _ = _ := by simp
    have hdl : (downloadSelectedCovers env s allSeries books [] false).2 =
        (if (processBooks env s allSeries 0 books
              { knownFilenames := [], imagesToZip := [], assignedNames := [] }).imagesToZip.length
            = 0 then []
         else if (processBooks env s allSeries 0 books
              { knownFilenames := [], imagesToZip := [], assignedNames := [] }).imagesToZip.length
            = 1 then
           match (processBooks env s allSeries 0 books
              { knownFilenames := [], imagesToZip := [], assignedNames := [] }).imagesToZip with
           | [(imageKey, image)] => [SaveEffect.saveFile (leafName imageKey) image]
           | _ => []
         else
           [SaveEffect.saveZip
             (if parseTextVariables allSeries s.zipFilename none (some "zip") = "" then
               "covers.zip"
              else parseTextVariables allSeries s.zipFilename none (some "zip"))
             (processBooks env s allSeries 0 books
               { knownFilenames := [], imagesToZip := [], assignedNames := [] }).imagesToZip
             0]) := rfl
    rw [hdl, if_neg (by omega), if_neg (by omega)]
    refine ⟨_, rfl, ?_, ?_⟩
    · intro e he
      have hv := values_applyEntries _ _ _ (hZ ▸ he)
      rcases hv with hv | hv
      · simp at hv
      · have hlen2 : (collisionResolve (elig.map (fun p => p.1))).length =
            (elig.map (fun p => p.2)).length := by
          rw [collisionResolve, collisionResolveGo_length]
          simp
        have : ((collisionResolve (elig.map (fun p => p.1))).zip
            (elig.map (fun p => p.2))).map (fun x => x.2) = elig.map (fun p => p.2) := by
          apply List.map_snd_zip
          omega
        rw [hmapfst, collisionResolve] at this
        rw [show collisionResolveGo (f1.1 :: f2.1 :: rest2.map (fun p => p.1)) [] =
          collisionResolve (f1.1 :: f2.1 :: rest2.map (fun p => p.1)) from rfl, hcr] at this
        rw [hmapsnd] at this
        rw [this] at hv
        rw [hmapsnd]
        exact hv
    · intro hnd
      have hlen2 : (collisionResolve (elig.map (fun p => p.1))).length =
          (elig.map (fun p => p.2)).length := by
        rw [collisionResolve, collisionResolveGo_length]
        simp
      have hfst : ((collisionResolve (elig.map (fun p => p.1))).zip
          (elig.map (fun p => p.2))).map (fun e => e.1) =
          collisionResolve (elig.map (fun p => p.1)) := by
        apply List.map_fst_zip
        omega
      have hdisj := applyEntries_of_disjoint
        ((collisionResolve (elig.map (fun p => p.1))).zip (elig.map (fun p => p.2))) []
        (by rw [hfst]; exact hnd) (by simp)
      have hZ2 := hzip
      rw [show collisionResolveGo (elig.map (fun p => p.1)) [] =
        collisionResolve (elig.map (fun p => p.1)) from rfl] at hZ2
      rw [hZ2, hdisj]
      simp

/-- The packaging environment of the C7 counterexample run: three buffers,
every buffer sniffing as a jpeg image. -/
def c7env : RunEnv where
  images := [some 1, some 2, some 3]
  sniff := fun _ => some { ext := "jpg", mime := "image/jpeg" }

/-- The template settings of the C7 counterexample run: no path, the plain
volume name as the cover filename, an empty zip template. -/
def c7settings : RunSettings where
  coverPath := ""
  coverFilename := "VOLUME_NAME"
  zipFilename := ""

/-- A book carrying only a volume name. -/
def c7bookNamed (v : String) : Book := { emptyBook with volumeName := v }

/-- The three selected books of the counterexample run: rendered filenames
a (1), a, a. -/
def c7books : List Book := [c7bookNamed "a (1)", c7bookNamed "a", c7bookNamed "a"]

/-- C7 counterexample: three eligible images render the filenames
a (1), a and a; the collision suffix turns the third into a (1), which
overwrites the first zip entry, so the produced archive holds two entries
and the eligible buffer 1 is silently dropped. -/
theorem c7_zip_drops_entry :
    2 ≤ (eligibleEntries c7env c7settings [] 0 c7books).length ∧
    1 ∈ (eligibleEntries c7env c7settings [] 0 c7books).map (fun p => p.2) ∧
    (downloadSelectedCovers c7env c7settings [] c7books [] false).2 =
      [SaveEffect.saveZip "covers.zip" [("a (1)", 3), ("a", 2)] 0] ∧
    ¬ (1 ∈ ([("a (1)", 3), ("a", 2)] : List (String × Nat)).map (fun p => p.2)) := by
  decide

/-- Two books with distinct volume names, for the witness run. -/
def c7wbooks : List Book := [c7bookNamed "a", c7bookNamed "b"]

/-- Witness for C7: the packaging characterization applied to concrete
runs — an empty selection saves nothing, a single eligible image is saved
directly, and a two-image selection with distinct names yields one
uncompressed zip holding exactly both entries. -/
theorem c7_packaging_test_witness :
    (downloadSelectedCovers c7env c7settings [] [] [] false).2 = [] ∧
    (downloadSelectedCovers c7env c7settings [] [c7bookNamed "a"] [] false).2 =
      [SaveEffect.saveFile (leafName "a") 1] ∧
    (∃ entries,
      (downloadSelectedCovers c7env c7settings [] c7wbooks [] false).2 =
        [SaveEffect.saveZip
          (if parseTextVariables [] c7settings.zipFilename none (some "zip") = "" then
            "covers.zip"
           else parseTextVariables [] c7settings.zipFilename none (some "zip")) entries 0] ∧
      (∀ e ∈ entries,
        e.2 ∈ (eligibleEntries c7env c7settings [] 0 c7wbooks).map (fun p => p.2)) ∧
      ((collisionResolve
          ((eligibleEntries c7env c7settings [] 0 c7wbooks).map (fun p => p.1))).Nodup →
        entries =
          (collisionResolve
            ((eligibleEntries c7env c7settings [] 0 c7wbooks).map (fun p => p.1))).zip
            ((eligibleEntries c7env c7settings [] 0 c7wbooks).map (fun p => p.2)))) :=
  ⟨(c7_packaging_test c7env c7settings [] []).1 (by decide),
   (c7_packaging_test c7env c7settings [] [c7bookNamed "a"]).2.1 "a" 1 (by decide),
   (c7_packaging_test c7env c7settings [] c7wbooks).2.2 (by decide)⟩

/-! ## C6 and C9: the fetch orchestrator (dock.ts 465-644 and 914-951) -/

/-- The environment of one fetch cycle: for each requested page number, the
response's reported page total and book count, and the processed books and
book pages the loop body would append for that page (the per-provider book
construction of dock.ts 499-607 is collapsed into this oracle, because the
claims quantify over every possible response; books are opaque tokens). -/
structure FetchEnv where
  pagesAt : Nat → Nat
  countAt : Nat → Nat
  booksAt : Nat → List Nat
  bookPagesAt : Nat → List Nat

/-- The orchestrator state observed by C6 and C9 (the class fields of
dock.ts 117-145 these claims touch).  `hasIds` stands for one of the
selected-id records being nonempty (the dock.ts 470 guard). -/
structure DockState where
  isFetching : Bool
  hasIds : Bool
  sortAsc : Bool
  page : Nat
  maxPage : Nat
  incrementPages : Bool
  fetchedPages : List Nat
  allBooks : List Nat
  allBookPages : List Nat
  selectedBooks : List Nat
deriving Repr, DecidableEq

/-- One iteration of the page loop (dock.ts 483-607): push the page onto
the tracker unconditionally, raise `maxPage` to the response's page total,
and append the processed books and book pages when the response is
nonempty. -/
def fetchPage (env : FetchEnv) (st : DockState) (p : Nat) : DockState :=
  { st with
    fetchedPages := st.fetchedPages ++ [p]
    maxPage := max st.maxPage (env.pagesAt p)
    allBooks := if 0 < env.countAt p then st.allBooks ++ env.booksAt p else st.allBooks
    allBookPages :=
      if 0 < env.countAt p then st.allBookPages ++ env.bookPagesAt p else st.allBookPages }

/-- The pages one fetch cycle requests (dock.ts 476-481): in increment
mode, pages 1..page not already in the tracker; otherwise the current page
alone, whether or not it was already fetched. -/
def pagesToFetch (st : DockState) : List Nat :=
  if st.incrementPages then
    ((List.range st.page).map (fun i => i + 1)).filter (fun p => ! st.fetchedPages.contains p)
  else [st.page]

/-- `fetchBooks` (dock.ts 465-613): a no-op when already fetching or when
nothing is selected; otherwise one `fetchPage` step per requested page.
Returns the new state and the pages requested from the API.  The fetching
flag is raised at the start of the cycle and lowered at its end, so the
returned state carries its incoming value. -/
def fetchBooksM (env : FetchEnv) (st : DockState) : DockState × List Nat :=
  if st.isFetching then (st, [])
  else if ¬ st.hasIds then (st, [])
  else ((pagesToFetch st).foldl (fetchPage env) st, pagesToFetch st)

/-- The clearing half of `resetAll` (dock.ts 615-620): tracker, aggregate
books, selection and book pages are emptied. -/
def clearTracker (st : DockState) : DockState :=
  { st with
    fetchedPages := []
    allBooks := []
    selectedBooks := []
    allBookPages := [] }

/-- `resetAll` (dock.ts 615-623): clear, then fetch. -/
def resetAllM (env : FetchEnv) (st : DockState) : DockState × List Nat :=
  fetchBooksM env (clearTracker st)

/-- `changePage` (dock.ts 626-631): a no-op on the current page; otherwise
set the page, leave increment mode, and reset. -/
def changePageM (env : FetchEnv) (p : Nat) (st : DockState) : DockState × List Nat :=
  if p = st.page then (st, [])
  else resetAllM env { st with page := p, incrementPages := false }

/-- `incrementPage` (dock.ts 633-639): guarded by `isNextPage`
(page < maxPage); bump the page, enter increment mode, and fetch without a
reset. -/
def incrementPageM (env : FetchEnv) (st : DockState) : DockState × List Nat :=
  if st.page < st.maxPage then
    fetchBooksM env { st with page := st.page + 1, incrementPages := true }
  else (st, [])

/-- `toggleSortOrder` (dock.ts 641-644): flip the order and reset. -/
def toggleSortOrderM (env : FetchEnv) (st : DockState) : DockState × List Nat :=
  resetAllM env { st with sortAsc := ! st.sortAsc }

/-- The start-up operation (dock.ts 914-951), with the query-parameter scan
collapsed to whether any series or book ids were found within the limit:
the ids are installed and, when a provider matched, a fetch cycle runs.
The fetched-page tracker is not cleared. -/
def initDockM (env : FetchEnv) (hasIds : Bool) (st : DockState) : DockState × List Nat :=
  if hasIds then fetchBooksM env { st with hasIds := hasIds }
  else ({ st with hasIds := hasIds }, [])

/-- The initial orchestrator state (the field initializers,
dock.ts 117-145). -/
def freshDock : DockState where
  isFetching := false
  hasIds := false
  sortAsc := true
  page := 1
  maxPage := 1
  incrementPages := false
  fetchedPages := []
  allBooks := []
  allBookPages := []
  selectedBooks := []

/-- Folding the page loop appends exactly the requested pages to the
tracker. -/
theorem foldl_fetchPage_pages (env : FetchEnv) :
    ∀ (ps : List Nat) (st : DockState),
    (ps.foldl (fetchPage env) st).fetchedPages = st.fetchedPages ++ ps := by
  intro ps
  induction ps with
  | nil => intro st; simp
  | cons p rest ih =>
    intro st
    rw [List.foldl_cons, ih]
    simp [fetchPage]

/-- A fetch cycle appends exactly the requested pages to the tracker. -/
theorem fetchBooksM_pages (env : FetchEnv) (st : DockState) :
    (fetchBooksM env st).1.fetchedPages = st.fetchedPages ++ (fetchBooksM env st).2 := by
  unfold fetchBooksM
  by_cases h1 : st.isFetching
  · simp [h1]
  · by_cases h2 : st.hasIds
    · simp [h1, h2, foldl_fetchPage_pages]
    · simp [h1, h2]

/-- The requested batch never repeats a page: in increment mode it filters
a duplicate-free range, otherwise it is a single page. -/
theorem pagesToFetch_nodup (st : DockState) : (pagesToFetch st).Nodup := by
  unfold pagesToFetch
  by_cases h : st.incrementPages
  · rw [if_pos h]
    exact List.Nodup.filter _ (List.Nodup.map (fun a b hab => by omega) (List.nodup_range st.page))
  · rw [if_neg h]
    exact List.nodup_singleton _

/-- In increment mode the requested batch avoids every page already in the
tracker. -/
theorem pagesToFetch_disjoint (st : DockState) (h : st.incrementPages = true) :
    ∀ p ∈ pagesToFetch st, p ∉ st.fetchedPages := by
  intro p hp
  unfold pagesToFetch at hp
  rw [if_pos h] at hp
  simp only [List.mem_filter, Bool.not_eq_true'] at hp
  simpa using hp.2

/-- A fetch cycle either fires a guard (no requests) or requests exactly
`pagesToFetch`. -/
theorem fetchBooksM_snd (env : FetchEnv) (st : DockState) :
    (fetchBooksM env st).2 = [] ∨ (fetchBooksM env st).2 = pagesToFetch st := by
  unfold fetchBooksM
  by_cases h1 : st.isFetching
  · simp [h1]
  · by_cases h2 : st.hasIds
    · simp [h1, h2]
    · simp [h1, h2]

/-- An increment-mode fetch preserves a duplicate-free tracker. -/
theorem fetchBooksM_nodup (env : FetchEnv) (st : DockState)
    (hinc : st.incrementPages = true) (hnd : st.fetchedPages.Nodup) :
    (fetchBooksM env st).1.fetchedPages.Nodup := by
  rw [fetchBooksM_pages env st]
  rcases fetchBooksM_snd env st with h | h
  · rw [h]; simpa using hnd
  · rw [h]
    refine List.Nodup.append hnd (pagesToFetch_nodup st) ?_
    intro a ha hb
    exact pagesToFetch_disjoint st hinc a hb ha

/-- A fetch from an empty tracker yields a duplicate-free tracker. -/
theorem fetchBooksM_nodup_of_nil (env : FetchEnv) (st : DockState)
    (h : st.fetchedPages = []) : (fetchBooksM env st).1.fetchedPages.Nodup := by
  rw [fetchBooksM_pages env st, h]
  rcases fetchBooksM_snd env st with h2 | h2
  · rw [h2]; simp
  · rw [h2]; simpa using pagesToFetch_nodup st

/-- After a reset the tracker is exactly the freshly requested batch. -/
theorem resetAllM_pages (env : FetchEnv) (st : DockState) :
    (resetAllM env st).1.fetchedPages = (resetAllM env st).2 := by
  unfold resetAllM
  have h := fetchBooksM_pages env (clearTracker st)
  simpa [clearTracker] using h

/-- After a reset the tracker is duplicate-free. -/
theorem resetAllM_nodup (env : FetchEnv) (st : DockState) :
    (resetAllM env st).1.fetchedPages.Nodup :=
  fetchBooksM_nodup_of_nil env (clearTracker st) rfl

/-- C6: a `fetchBooks` call while a fetch cycle is already in flight is a
complete no-op — the returned state equals the incoming state (no tracker
entries, no aggregate books, nothing else changes) and no page request is
issued. -/
theorem c6_fetch_noop (env : FetchEnv) (st : DockState)
    (h : st.isFetching = true) :
    fetchBooksM env st = (st, []) := by
  simp [fetchBooksM, h]

/-- A concrete fetch environment: every page reports one page total and an
empty response. -/
def c9env : FetchEnv where
  pagesAt := fun _ => 1
  countAt := fun _ => 0
  booksAt := fun _ => []
  bookPagesAt := fun _ => []

/-- A concrete mid-flight state: a fetch cycle is running. -/
def busyDock : DockState :=
  { freshDock with
    isFetching := true
    hasIds := true
    fetchedPages := [1] }

/-- Witness for C6: the guard fires on the concrete mid-flight state. -/
theorem c6_fetch_noop_witness :
    busyDock.isFetching = true ∧ fetchBooksM c9env busyDock = (busyDock, []) :=
  ⟨rfl, c6_fetch_noop c9env busyDock rfl⟩

/-- C9 counterexample: starting from the state just after an id-bearing
start-up (tracker [1], single-page mode), one further public `fetchBooks`
call pushes page 1 again — the tracker becomes [1, 1] with no reset in
between, so it does contain a duplicate page number. -/
theorem c9_duplicate_fetched_pages :
    (initDockM c9env true freshDock).1.fetchedPages = [1] ∧
    (fetchBooksM c9env (initDockM c9env true freshDock).1).1.fetchedPages = [1, 1] ∧
    ¬ (fetchBooksM c9env (initDockM c9env true freshDock).1).1.fetchedPages.Nodup := by
  decide

/-- C9 (amended): the tracker only grows — a fetch cycle appends exactly
the pages it requests and removes nothing — and a reset clears it first,
so after `resetAll` (hence after `changePage` to a new page and after
`toggleSortOrder`) it is exactly the freshly requested duplicate-free
batch; increment-mode fetches, and therefore `incrementPage`, preserve
freedom from duplicates because already-fetched pages are filtered out of
the batch.  (A single-page `fetchBooks` of an already-fetched page,
however, duplicates its entry: see the counterexample.) -/
theorem c9_fetched_pages (env : FetchEnv) (st : DockState) :
    (fetchBooksM env st).1.fetchedPages = st.fetchedPages ++ (fetchBooksM env st).2 ∧
    (resetAllM env st).1.fetchedPages = (resetAllM env st).2 ∧
    (resetAllM env st).1.fetchedPages.Nodup ∧
    (st.incrementPages = true → st.fetchedPages.Nodup →
      (fetchBooksM env st).1.fetchedPages.Nodup) ∧
    (st.fetchedPages.Nodup → (incrementPageM env st).1.fetchedPages.Nodup) ∧
    (∀ p, p ≠ st.page → (changePageM env p st).1.fetchedPages.Nodup) ∧
    (toggleSortOrderM env st).1.fetchedPages.Nodup := by
  refine ⟨fetchBooksM_pages env st, resetAllM_pages env st, resetAllM_nodup env st,
    fun hinc hnd => fetchBooksM_nodup env st hinc hnd, ?_, ?_, resetAllM_nodup env _⟩
  · intro hnd
    unfold incrementPageM
    by_cases h : st.page < st.maxPage
    · rw [if_pos h]
      exact fetchBooksM_nodup env _ rfl hnd
    · rw [if_neg h]
      exact hnd
  · intro p hp
    unfold changePageM
    rw [if_neg (by simpa using hp)]
    exact resetAllM_nodup env _

/-- A concrete idle state in increment mode with a duplicate-free tracker
and a next page available. -/
def c9wst : DockState :=
  { freshDock with
    hasIds := true
    incrementPages := true
    fetchedPages := [1]
    page := 2
    maxPage := 3 }

/-- Witness for C9: the amended tracker properties applied to the concrete
increment-mode state. -/
theorem c9_fetched_pages_witness :
    ((fetchBooksM c9env c9wst).1.fetchedPages =
      c9wst.fetchedPages ++ (fetchBooksM c9env c9wst).2) ∧
    (resetAllM c9env c9wst).1.fetchedPages.Nodup ∧
    (fetchBooksM c9env c9wst).1.fetchedPages.Nodup ∧
    (incrementPageM c9env c9wst).1.fetchedPages.Nodup ∧
    (changePageM c9env 5 c9wst).1.fetchedPages.Nodup ∧
    (toggleSortOrderM c9env c9wst).1.fetchedPages.Nodup :=
  have h := c9_fetched_pages c9env c9wst
  ⟨h.1, h.2.2.1, h.2.2.2.1 rfl (by decide), h.2.2.2.2.1 (by decide),
    h.2.2.2.2.2.1 5 (by decide), h.2.2.2.2.2.2⟩
